import Mathlib

/-!
Verification development for the cloudonix-voiceai-connector repository.

The repository is a Node.js CLI that provisions SIP trunks between Cloudonix
and several Voice-AI providers (VAPI, Retell, ElevenLabs) and keeps a local
YAML configuration in sync with the remote providers.  This file gives a
shallow embedding of the parts of the code relevant to the synchronization
and reconciliation engine:

  * `src/utils/config.js`        : `getConfig` / `saveConfig` (the YAML store)
  * `src/commands/sync.js`       : `syncCommand` / `syncProviderNumbers`
  * `src/services/vapiApi.js`    : `VapiApiService` (verifyApiKey, getPhoneNumbers)
  * `src/services/retellApi.js`  : `RetellApiService` (constructor `_updateConfig`)
  * `src/services/ElevenLabsAgentProvider.js` : `getPhoneNumbers` with its
    local-configuration fallback, `_updateConfig`, `verifyApiKey`
  * `src/services/providerRegistry.js` : alias resolution
  * `src/commands/addnumber.js`  : `addNumberCommand` (storage section)

Modelling conventions:

  * JavaScript values coming from provider HTTP responses are modelled by the
    inductive type `JsVal`.  Property access on `null`/`undefined` raises a
    TypeError; this is modelled with `Except Unit`.
  * JavaScript objects (the YAML configuration tree) are modelled as
    association lists in insertion order; `alookup` finds the first binding,
    `aupdate` overwrites in place or appends, `adel` removes the binding,
    mirroring JS object key semantics.
  * The configuration file on disk is modelled as a `Config` value; YAML
    serialization (`yaml.dump`) is deterministic, so "byte-for-byte equal
    files" corresponds to equality of `Config` trees.
  * Environment variables (`VAPI_API_KEY`, ...) are taken to be unset, so the
    defaults inside `getConfig` are empty strings.
-/

/-! ## JavaScript value model -/

/-- A JavaScript value as delivered by a provider API response. -/
inductive JsVal where
  | null
  | undefined
  | str (s : String)
  | num (n : Int)
  | bool (b : Bool)
  | arr (xs : List JsVal)
  | obj (fs : List (String × JsVal))

/-- Property access, `v[f]`.  Throws (models a TypeError) on `null` and
`undefined`; yields `undefined` for missing fields and on primitives. -/
def JsVal.getField : JsVal → String → Except Unit JsVal
  | .null, _ => .error ()
  | .undefined, _ => .error ()
  | .obj fs, f =>
    match fs.lookup f with
    | some v => .ok v
    | none => .ok .undefined
  | _, _ => .ok .undefined 

/-- JavaScript truthiness. -/
def JsVal.truthy : JsVal → Bool
  | .null => false
  | .undefined => false
  | .str s => !s.isEmpty
  | .num n => n != 0
  | .bool b => b
  | .arr _ => true
  | .obj _ => true

/-- Strict equality (`===`) of a value with a string. -/
def JsVal.strictEqStr : JsVal → String → Bool
  | .str t, s => t = s
  | _, _ => false

/-! ## Association-list operations (JS object semantics) -/

/-- First binding of key `k`. -/
def alookup (k : String) : List (String × α) → Option α
  | [] => none
  | (k', v) :: t => if k' = k then some v else alookup k t

/-- `o[k] = v`: overwrite the first binding in place, or append. -/
def aupdate (k : String) (v : α) : List (String × α) → List (String × α)
  | [] => [(k, v)]
  | (k', v') :: t => if k' = k then (k, v) :: t else (k', v') :: aupdate k v t

/-- `delete o[k]`: drop the first binding of `k`. -/
def adel (k : String) : List (String × α) → List (String × α)
  | [] => []
  | (k', v') :: t => if k' = k then t else (k', v') :: adel k t

/-! ## Configuration data model (`~/.cx-vcc/config.yaml`) -/

/-- One phone-number map: keys are phone numbers, values the stored record
(`{id, sipUri}` or `{id, domainName}`; reconciliation never inspects them). -/
abbrev PNMap := List (String × JsVal)

/-- One provider section, global (`config.vapi`, ...) or inside a domain
(`config.domains[d].vapi`, ...).  `Option` distinguishes absent keys. -/
structure ProviderSection where
  apiKey : Option String := none
  apiUrl : Option String := none
  trunkCredentialId : Option String := none
  phoneNumbers : Option PNMap := none

/-- One domain record under `config.domains`. -/
structure DomainConfig where
  inboundSipUri : Option String := none
  apiKey : Option String := none
  aliasName : Option String := none
  tenant : Option String := none
  providerSections : List (String × ProviderSection) := []

/-- The whole configuration document. -/
structure Config where
  domains : List (String × DomainConfig) := []
  providerSections : List (String × ProviderSection) := []

/-- Phone-number map stored under top-level key `k`, if any. -/
def sectionNums (c : Config) (k : String) : Option PNMap :=
  match alookup k c.providerSections with
  | some s => s.phoneNumbers
  | none => none

/-- Record stored for number `n` in the global section `k`. -/
def globalNumLookup (c : Config) (k n : String) : Option JsVal :=
  match sectionNums c k with
  | some pns => alookup n pns
  | none => none

/-- Record stored for number `n` under domain `d`, provider key `k`. -/
def domainNumLookup (c : Config) (d k n : String) : Option JsVal :=
  match alookup d c.domains with
  | some dc =>
    match alookup k dc.providerSections with
    | some s =>
      match s.phoneNumbers with
      | some pns => alookup n pns
      | none => none
    | none => none
  | none => none

/-! ## `getConfig` (src/utils/config.js)

`getConfig` merges the file with a default skeleton: `domains` is taken
as-is; `vapi` and `retell` are spread over defaults with empty-string
credentials; for `elevenlabs` ONLY `apiKey` is copied — `apiUrl`,
`phoneNumbers` and anything else stored in that section are dropped. -/

/-- `{...{apiKey:'', apiUrl:''}, ...(fileSection || {})}`. -/
def mergeSection (fs : Option ProviderSection) : ProviderSection :=
  match fs with
  | none => { apiKey := some "", apiUrl := some "" }
  | some s =>
    { apiKey := some (s.apiKey.getD "")
      apiUrl := some (s.apiUrl.getD "")
      trunkCredentialId := s.trunkCredentialId
      phoneNumbers := s.phoneNumbers }

/-- The elevenlabs branch: `{ apiKey: fileConfig.elevenlabs?.apiKey || '' }`. -/
def elevenLoadSection (fs : Option ProviderSection) : ProviderSection :=
  { apiKey := some ((fs.bind (·.apiKey)).getD "") }

/-- `getConfig()`: the in-memory view of the stored file. -/
def getConfig (file : Config) : Config :=
  { domains := file.domains
    providerSections :=
      [("vapi", mergeSection (alookup "vapi" file.providerSections)),
       ("retell", mergeSection (alookup "retell" file.providerSections)),
       ("elevenlabs", elevenLoadSection (alookup "elevenlabs" file.providerSections))] }

/-! ## Providers -/

/-- The three providers handled by `syncCommand`. -/
inductive Provider where
  | vapi
  | retell
  | labs11

/-- `providerName.toLowerCase()` as used throughout `syncProviderNumbers`. -/
def Provider.lowerName : Provider → String
  | .vapi => "vapi"
  | .retell => "retell"
  | .labs11 => "11labs"

/-- The configuration keys probed for this provider
(`['elevenlabs', '11labs']` for 11Labs, else the lowercased name). -/
def Provider.configKeys : Provider → List String
  | .labs11 => ["elevenlabs", "11labs"]
  | .vapi => ["vapi"]
  | .retell => ["retell"]

/-- Key of the global section `syncCommand` passes as `providerConfig`. -/
def Provider.globalKey : Provider → String
  | .vapi => "vapi"
  | .retell => "retell"
  | .labs11 => "elevenlabs"

/-! ## Service constructors (`_updateConfig`)

`RetellApiService` and `ElevenLabsAgentProvider` call `_updateConfig()` from
their constructors: re-read the config, overwrite the provider's `apiKey` and
`apiUrl`, and save.  `VapiApiService` does not.  During `syncCommand` the
constructor arguments are the credentials of the freshly loaded config. -/

/-- `RetellApiService` constructor effect on the stored file (`_updateConfig`).
`apiKey`/`baseUrl` are `config.retell.apiKey` / `config.retell.apiUrl` as
passed by `syncCommand`. -/
def retellCtorWrite (file : Config) : Config :=
  let cfg := getConfig file
  let apiKey := ((alookup "retell" cfg.providerSections).bind (·.apiKey)).getD ""
  let apiUrl := ((alookup "retell" cfg.providerSections).bind (·.apiUrl)).getD ""
  let sec := (alookup "retell" cfg.providerSections).getD ({} : ProviderSection)
  let sec := { sec with apiKey := some apiKey, apiUrl := some apiUrl }
  { cfg with providerSections := aupdate "retell" sec cfg.providerSections }

/-- `ElevenLabsAgentProvider` constructor effect.  `syncCommand` passes
`config.elevenlabs.apiUrl`, which `getConfig` always strips, so the default
base URL applies. -/
def elevenCtorWrite (file : Config) : Config :=
  let cfg := getConfig file
  let apiKey := ((alookup "elevenlabs" cfg.providerSections).bind (·.apiKey)).getD ""
  let sec := (alookup "elevenlabs" cfg.providerSections).getD ({} : ProviderSection)
  let sec := { sec with apiKey := some apiKey, apiUrl := some "https://api.elevenlabs.io" }
  { cfg with providerSections := aupdate "elevenlabs" sec cfg.providerSections }

/-! ## `ElevenLabsAgentProvider.getPhoneNumbers`

Unwraps the raw response (top-level array, or an array found under
`phone_numbers` / `data` / `results` / `items`), and when the remote call
throws, or the unwrap throws, or zero entries result, falls back to the
phone numbers of the locally stored `elevenlabs` section.  It never throws. -/

/-- Match one candidate wrapper field: the value must be an array. -/
def elevenWrapField (data : JsVal) (f : String) : Except Unit (Option (List JsVal)) := do
  let v ← data.getField f
  match v with
  | .arr xs => pure (some xs)
  | _ => pure none

/-- The response-shape probing chain of `getPhoneNumbers`. -/
def elevenUnwrap (data : JsVal) : Except Unit (List JsVal) :=
  match data with
  | .arr xs => .ok xs
  | _ => do
    match ← elevenWrapField data "phone_numbers" with
    | some xs => pure xs
    | none =>
    match ← elevenWrapField data "data" with
    | some xs => pure xs
    | none =>
    match ← elevenWrapField data "results" with
    | some xs => pure xs
    | none =>
    match ← elevenWrapField data "items" with
    | some xs => pure xs
    | none => pure []

/-- The local-configuration fallback: synthesize API-shaped records from
`config.elevenlabs.phoneNumbers`.  (`getConfig` strips that map, so this
always yields `[]`, but the code path is modelled faithfully.) -/
def elevenLocalFallback (file : Config) : List JsVal :=
  match sectionNums (getConfig file) "elevenlabs" with
  | some pns =>
    pns.map (fun nv =>
      .obj [("phone_number", .str nv.1), ("label", .str nv.1), ("source", .str "local_config")])
  | none => []

/-- `getPhoneNumbers()` of the ElevenLabs provider: total over the remote
outcome (`.error ()` models a thrown request). -/
def elevenGetPhoneNumbers (remote : Except Unit JsVal) (file : Config) : JsVal :=
  match remote with
  | .error _ =>
    -- catch block: final fallback, else []
    .arr (elevenLocalFallback file)
  | .ok data =>
    match elevenUnwrap data with
    | .error _ => .arr (elevenLocalFallback file)
    | .ok pns =>
      if pns.length > 0 then .arr pns
      else .arr (elevenLocalFallback file)

/-! ## Remote-number extraction inside `syncProviderNumbers`

Lines 386-402 of the sync command: provider-specific extraction of the
canonical number from each entry of an array response, then
`.filter(num => num)`.  Runs inside the `try`, so a TypeError here is caught
by the same `catch` as a fetch failure. -/

/-- `remoteData.filter(item => item[f] === v)`. -/
def jsFilterFieldEq (f v : String) : List JsVal → Except Unit (List JsVal)
  | [] => .ok []
  | it :: ts => do
    let p ← it.getField f
    let rest ← jsFilterFieldEq f v ts
    pure (if p.strictEqStr v then it :: rest else rest)

/-- `kept.map(item => item[f])`. -/
def jsMapField (f : String) : List JsVal → Except Unit (List JsVal)
  | [] => .ok []
  | it :: ts => do
    let v ← it.getField f
    let rest ← jsMapField f ts
    pure (v :: rest)

/-- `item[f1] || item[f2] || ''` with JS short-circuiting. -/
def pickField2 (f1 f2 : String) (it : JsVal) : Except Unit JsVal := do
  let a ← it.getField f1
  if a.truthy then pure a else do
    let b ← it.getField f2
    if b.truthy then pure b else pure (.str "")

/-- `item[f1] || item[f2] || item[f3] || ''`. -/
def pickField3 (f1 f2 f3 : String) (it : JsVal) : Except Unit JsVal := do
  let a ← it.getField f1
  if a.truthy then pure a else do
    let b ← it.getField f2
    if b.truthy then pure b else do
      let c ← it.getField f3
      if c.truthy then pure c else pure (.str "")

/-- `items.map(pick)` with left-to-right effects. -/
def jsMapPick (pick : JsVal → Except Unit JsVal) : List JsVal → Except Unit (List JsVal)
  | [] => .ok []
  | it :: ts => do
    let v ← pick it
    let rest ← jsMapPick pick ts
    pure (v :: rest)

/-- The per-provider extraction of `remotePhoneNumbers` from `remoteData`.
Non-array responses leave the list empty. -/
def extractRemotePhoneNumbers (p : Provider) (remoteData : JsVal) :
    Except Unit (List JsVal) :=
  match remoteData with
  | .arr items =>
    (match p with
     | .vapi => do
       let kept ← jsFilterFieldEq "provider" "byo-phone-number" items
       jsMapField "number" kept
     | .retell => jsMapPick (pickField2 "phone_number" "phoneNumber") items
     | .labs11 => jsMapPick (pickField3 "phone_number" "phoneNumber" "number") items)
    |>.map (List.filter JsVal.truthy)
  | _ => .ok []

/-! ## `syncProviderNumbers` (the reconciliation engine)

Faithful model of the function in the sync command.  Inputs: the provider,
the optional `--domain` filter, the remote outcome of the underlying
list-phone-numbers HTTP request (`.error ()` = the request threw), and the
stored configuration file.  The service constructor run inside
`fetchRemoteNumbers` and its config write are part of the model. -/

/-- `providerConfig.phoneNumbers && Object.keys(...).length > 0` style check. -/
def sectionHasNumbers (os : Option ProviderSection) : Bool :=
  match os with
  | some s =>
    match s.phoneNumbers with
    | some pns => decide (0 < pns.length)
    | none => false
  | none => false

/-- Whether a domain has numbers for one of this provider's config keys. -/
def domainHasNumbers (p : Provider) (dc : DomainConfig) : Bool :=
  p.configKeys.any fun k => sectionHasNumbers (alookup k dc.providerSections)

/-- Lines 256-306: is there anything to synchronize at all? -/
def hasPhoneNumbers (p : Provider) (cfg : Config) (providerConfig : ProviderSection)
    (domainFilter : Option String) : Bool :=
  (match providerConfig.phoneNumbers with
   | some pns => decide (0 < pns.length)
   | none => false)
  || (match domainFilter with
      | some f =>
        match alookup f cfg.domains with
        | some dc => domainHasNumbers p dc
        | none => false
      | none => cfg.domains.any fun d => domainHasNumbers p d.2)

/-- The `phoneNumberSet` (insertion-ordered, deduplicated) together with the
`phonesForDomain` object. -/
structure LocalAcc where
  numSet : List String
  phonesForDomain : List (String × String)

/-- `Set.add`. -/
def setAdd (n : String) (l : List String) : List String :=
  if l.contains n then l else l ++ [n]

/-- `phoneNumberSet.add(number); phonesForDomain[number] = ...` over the keys
of one phone-number map; the three call sites differ only in how
`phonesForDomain` is written, abstracted as `upd`. -/
def addNums (upd : String → List (String × String) → List (String × String))
    (pns : PNMap) (acc : LocalAcc) : LocalAcc :=
  pns.foldl (fun a nv => ⟨setAdd nv.1 a.numSet, upd nv.1 a.phonesForDomain⟩) acc

/-- Lines 319-326: numbers of the global provider config, domain `'global'`. -/
def addGlobalNums (providerConfig : ProviderSection) (acc : LocalAcc) : LocalAcc :=
  match providerConfig.phoneNumbers with
  | some pns => addNums (fun n pf => aupdate n "global" pf) pns acc
  | none => acc

/-- Walk the given config keys of one domain record and add each map found,
with the given `phonesForDomain` policy. -/
def addKeyedNums (upd : String → List (String × String) → List (String × String))
    (keys : List String) (dc : DomainConfig) (acc : LocalAcc) : LocalAcc :=
  keys.foldl (fun a k =>
    match alookup k dc.providerSections with
    | some s =>
      match s.phoneNumbers with
      | some pns => addNums upd pns a
      | none => a
    | none => a) acc

/-- Same, over this provider's config keys. -/
def addDomainNums (upd : String → List (String × String) → List (String × String))
    (p : Provider) (dc : DomainConfig) (acc : LocalAcc) : LocalAcc :=
  addKeyedNums upd p.configKeys dc acc

/-- Lines 329-342: numbers of the filtered domain; `phonesForDomain` is set
to the filter unconditionally. -/
def addDomainNumsFiltered (p : Provider) (f : String) (dc : DomainConfig)
    (acc : LocalAcc) : LocalAcc :=
  addDomainNums (fun n pf => aupdate n f pf) p dc acc

/-- The `phonesForDomain` write of lines 354-357: an existing non-`'global'`
mapping is kept. -/
def pfKeepDomain (dom : String) (n : String)
    (pf : List (String × String)) : List (String × String) :=
  match alookup n pf with
  | none => aupdate n dom pf
  | some d => if d = "global" then aupdate n dom pf else pf

/-- Lines 344-362: numbers of one domain in the unfiltered walk. -/
def addDomainNumsAll (p : Provider) (dom : String) (dc : DomainConfig)
    (acc : LocalAcc) : LocalAcc :=
  addDomainNums (pfKeepDomain dom) p dc acc

/-- Building `localPhoneNumbers` and `phonesForDomain`; with a filter naming
an unconfigured domain this throws a TypeError (line 334 dereferences
`config.domains[domainFilter]` unguarded). -/
def buildLocal (p : Provider) (cfg : Config) (providerConfig : ProviderSection)
    (domainFilter : Option String) : Except Unit LocalAcc :=
  let acc := addGlobalNums providerConfig ⟨[], []⟩
  match domainFilter with
  | some f =>
    match alookup f cfg.domains with
    | some dc => .ok (addDomainNumsFiltered p f dc acc)
    | none => .error ()
  | none => .ok (cfg.domains.foldl (fun a d => addDomainNumsAll p d.1 d.2 a) acc)

/-- The `fetchRemoteNumbers` closure of `syncCommand`: constructs the provider
service (whose constructor may rewrite the stored file) and performs the
request.  Returns the store after construction and the fetch outcome. -/
def providerFetch (p : Provider) (remote : Except Unit JsVal) (file : Config) :
    Config × Except Unit JsVal :=
  match p with
  | .vapi => (file, remote)
  | .retell => (retellCtorWrite file, remote)
  | .labs11 =>
    let file1 := elevenCtorWrite file
    (file1, .ok (elevenGetPhoneNumbers remote file1))

/-- One config key of lines 448-452/459-467: delete `n` from the section at
`k` when the section, its map and the entry are all present/truthy. -/
def removeNumStep (n : String) (secs : List (String × ProviderSection)) (k : String) :
    List (String × ProviderSection) :=
  match alookup k secs with
  | some sec =>
    match sec.phoneNumbers with
    | some pns =>
      if ((alookup n pns).map JsVal.truthy).getD false then
        aupdate k { sec with phoneNumbers := some (adel n pns) } secs
      else secs
    | none => secs
  | none => secs

/-- Lines 448-452: delete `n` from every global section named by the
provider's config keys. -/
def removeNumFromSections (keys : List String) (n : String)
    (secs : List (String × ProviderSection)) : List (String × ProviderSection) :=
  keys.foldl (removeNumStep n) secs

/-- Whether the section at `k` holds a truthy entry for `n` (the deletion
guard of lines 449 and 460-462). -/
def secEntryTruthy (secs : List (String × ProviderSection)) (k n : String) : Bool :=
  match alookup k secs with
  | some sec =>
    match sec.phoneNumbers with
    | some pns => ((alookup n pns).map JsVal.truthy).getD false
    | none => false
  | none => false

/-- Lines 458-467: delete `n` from a domain's provider sections, reporting
whether anything was removed. -/
def removeNumFromDomain (keys : List String) (n : String) (dc : DomainConfig) :
    DomainConfig × Bool :=
  keys.foldl (fun dcr k =>
    if secEntryTruthy dcr.1.providerSections k n then
      ({ dcr.1 with providerSections := removeNumStep n dcr.1.providerSections k },
       true)
    else dcr) (dc, false)

/-- Lines 442-445: skip numbers outside the filtered domain. -/
def removalSkip (domainFilter : Option String) (dom : Option String) : Bool :=
  match domainFilter, dom with
  | some f, some d => decide (d ≠ f)
  | some _, none => true
  | none, _ => false

/-- Lines 447-473 for one number: the global deletions, then the
domain-scoped deletions with the `removedCount` increment. -/
def removalApply (p : Provider) (dom : Option String) (st : Config × Nat)
    (n : String) : Config × Nat :=
  let cfg := { st.1 with
    providerSections := removeNumFromSections p.configKeys n st.1.providerSections }
  match dom with
  | some d =>
    if d.isEmpty then (cfg, st.2)
    else
      match alookup d st.1.domains with
      | some dc =>
        let dr := removeNumFromDomain p.configKeys n dc
        ({ cfg with domains := aupdate d dr.1 cfg.domains },
         if dr.2 then st.2 + 1 else st.2)
      | none => (cfg, st.2)
  | none => (cfg, st.2)

/-- One iteration of the removal loop (lines 439-474) on `(config, removedCount)`. -/
def removalStep (p : Provider) (domainFilter : Option String)
    (pf : List (String × String)) (st : Config × Nat) (n : String) : Config × Nat :=
  if removalSkip domainFilter (alookup n pf) then st
  else removalApply p (alookup n pf) st n

/-- Result of one provider's reconciliation pass.  `store` is the stored file
after the pass; `saved` records whether line 478's `saveConfig` ran;
`fetchFailed` records the catch of lines 413-417; `crashed` records an
uncaught TypeError (store untouched). -/
structure SyncResult where
  removedCount : Nat
  store : Config
  crashed : Bool
  fetchFailed : Bool
  saved : Bool

/-- Which control path `syncProviderNumbers` takes up to the removal loop. -/
inductive SyncPath where
  | noNumbers
  | crashed
  | emptyFiltered
  | fetchFailed
  | removalPhase (acc : LocalAcc) (remoteNums : List JsVal)

/-- The `providerConfig` argument `syncCommand` passes (the provider's global
section of the freshly loaded config). -/
def providerConfigOf (p : Provider) (cfg : Config) : ProviderSection :=
  (alookup p.globalKey cfg.providerSections).getD ({} : ProviderSection)

/-- The remote list as `syncProviderNumbers` sees it: fetch, then the
in-`try` extraction; either failure lands in the same `catch`. -/
def remoteNumsOf (p : Provider) (remote : Except Unit JsVal) (file : Config) :
    Except Unit (List JsVal) := do
  let d ← (providerFetch p remote file).2
  extractRemotePhoneNumbers p d

/-- Control-flow skeleton of `syncProviderNumbers` (lines 249-431). -/
def syncPath (p : Provider) (domainFilter : Option String)
    (remote : Except Unit JsVal) (file : Config) : SyncPath :=
  let cfg := getConfig file
  let pc := providerConfigOf p cfg
  if !(hasPhoneNumbers p cfg pc domainFilter) then .noNumbers
  else
    match buildLocal p cfg pc domainFilter with
    | .error _ => .crashed
    | .ok acc =>
      if domainFilter.isSome && acc.numSet.isEmpty then .emptyFiltered
      else
        match remoteNumsOf p remote file with
        | .error _ => .fetchFailed
        | .ok remoteNums => .removalPhase acc remoteNums

/-- Line 420: `localPhoneNumbers.filter(number => !remotePhoneNumbers.includes(number))`. -/
def numbersToRemoveOf (acc : LocalAcc) (remoteNums : List JsVal) : List String :=
  acc.numSet.filter (fun n => !(remoteNums.any (fun v => v.strictEqStr n)))

/-- `syncProviderNumbers(providerName, providerConfig, fetchRemoteNumbers,
domainFilter)` as invoked by `syncCommand` on the stored file `file` when the
underlying HTTP request resolves to `remote`. -/
def syncProviderNumbers (p : Provider) (domainFilter : Option String)
    (remote : Except Unit JsVal) (file : Config) : SyncResult :=
  match syncPath p domainFilter remote file with
  | .noNumbers => ⟨0, file, false, false, false⟩
  | .crashed => ⟨0, file, true, false, false⟩
  | .emptyFiltered => ⟨0, file, false, false, false⟩
  | .fetchFailed => ⟨0, (providerFetch p remote file).1, false, true, false⟩
  | .removalPhase acc remoteNums =>
    let toRemove := numbersToRemoveOf acc remoteNums
    if toRemove.isEmpty then ⟨0, (providerFetch p remote file).1, false, false, false⟩
    else
      let res := toRemove.foldl
        (removalStep p domainFilter acc.phonesForDomain) (getConfig file, 0)
      if 0 < res.2 then ⟨res.2, res.1, false, false, true⟩
      else ⟨res.2, (providerFetch p remote file).1, false, false, false⟩

/-! ## `verifyApiKey` per provider -/

/-- Outcome of the underlying verification request.  For VAPI/Retell (axios)
`httpError` means `error.response.status` is present; `transportError` means
no response was received.  For ElevenLabs (SDK) `httpError` carries
`error.statusCode`. -/
inductive ApiOutcome where
  | success
  | httpError (status : Nat)
  | transportError
deriving DecidableEq

/-- What `verifyApiKey` does: resolve `true`, throw the authentication error,
or throw a generic formatted error (`_handleError`). -/
inductive VerifyResult where
  | valid
  | authError
  | genericError

instance : DecidableEq VerifyResult := fun a b => by
  cases a <;> cases b <;> first
    | exact isTrue rfl
    | exact isFalse (by intro h; exact VerifyResult.noConfusion h)

/-- `VapiApiService.verifyApiKey` (vapiApi.js lines 81-95):
`error.response?.status` is `undefined` on transport failure, so the
`!== 403` branch returns `true` there. -/
def vapiVerifyApiKey : ApiOutcome → VerifyResult
  | .success => .valid
  | .httpError s => if s = 403 then .authError else .valid
  | .transportError => .valid

/-- `RetellApiService.verifyApiKey` (retellApi.js lines 89-103): both guarded
branches require `error.response`, so a transport failure falls through to
`_handleError`, which throws. -/
def retellVerifyApiKey : ApiOutcome → VerifyResult
  | .success => .valid
  | .httpError s => if s = 403 then .authError else .valid
  | .transportError => .genericError

/-- `ElevenLabsAgentProvider.verifyApiKey`: auth error exactly on SDK
`statusCode === 401`, `_handleError` throws on everything else. -/
def elevenVerifyApiKey : ApiOutcome → VerifyResult
  | .success => .valid
  | .httpError s => if s = 401 then .authError else .genericError
  | .transportError => .genericError

/-- Dispatch by provider. -/
def verifyApiKey : Provider → ApiOutcome → VerifyResult
  | .vapi => vapiVerifyApiKey
  | .retell => retellVerifyApiKey
  | .labs11 => elevenVerifyApiKey

/-! ## Provider registry (src/services/providerRegistry.js) -/

/-- The alias map. -/
def aliasMap : List (String × String) := [("11labs", "elevenlabs")]

/-- Keys of the registry object. -/
def registryKeys : List String := ["vapi", "retell", "elevenlabs"]

/-- `providerName.toLowerCase()`; `String.toLower`'s implementation does not
reduce in the kernel, so the character map is spelled out. -/
def jsToLower (s : String) : String := ⟨s.data.map Char.toLower⟩

/-- `getProviderConfig(providerName).configKey`, `none` when the provider is
unsupported (the function throws there). -/
def getProviderConfigKey (providerName : String) : Option String :=
  let lower := jsToLower providerName
  let key := (alookup lower aliasMap).getD lower
  if registryKeys.contains key then some key else none

/-! ## `syncCommand` (provider/domain filters and the three passes) -/

/-- `shouldSyncProvider` of syncCommand. -/
def shouldSyncProvider (provider : Option String) (name : String) : Bool :=
  match provider with
  | none => true
  | some s => jsToLower s == jsToLower name

/-- `config[k] && config[k].apiKey` truthiness after `getConfig`. -/
def apiKeyTruthy (cfg : Config) (k : String) : Bool :=
  match (alookup k cfg.providerSections).bind (·.apiKey) with
  | some s => !s.isEmpty
  | none => false

/-- The whole `syncCommand`: run the three provider blocks in order, each on
the store left by the previous one, and accumulate `totalChanges`. -/
def syncCommand (provider : Option String) (domain : Option String)
    (remoteVapi remoteRetell remoteEleven : Except Unit JsVal) (file : Config) :
    Config × Nat :=
  let cfg := getConfig file
  let st :=
    if shouldSyncProvider provider "vapi" && apiKeyTruthy cfg "vapi" then
      let r := syncProviderNumbers .vapi domain remoteVapi file
      (r.store, r.removedCount)
    else (file, 0)
  let st :=
    if shouldSyncProvider provider "retell" && apiKeyTruthy cfg "retell" then
      let r := syncProviderNumbers .retell domain remoteRetell st.1
      (r.store, st.2 + r.removedCount)
    else st
  if (shouldSyncProvider provider "11labs" || shouldSyncProvider provider "elevenlabs")
      && apiKeyTruthy cfg "elevenlabs" then
    let r := syncProviderNumbers .labs11 domain remoteEleven st.1
    (r.store, st.2 + r.removedCount)
  else st

/-! ## `addNumberCommand` (src/commands/addnumber.js, registry version) -/

/-- `a || b`. -/
def jsOr (a b : JsVal) : JsVal := if a.truthy then a else b

/-- Constructor side effect of `new Service(config[configKey].apiKey, ...)`. -/
def providerCtorWrite (configKey : String) (file : Config) : Config :=
  if configKey = "retell" then retellCtorWrite file
  else if configKey = "elevenlabs" then elevenCtorWrite file
  else file

/-- The `{id, sipUri}` record computed in lines 59-77 (throws propagate to the
catch, which exits without saving). -/
def addNumberRecord (lower : String) (number : String) (result : JsVal) :
    Except Unit JsVal :=
  if lower = "vapi" then do
    let s ← result.getField "sipUri"
    let i ← result.getField "id"
    pure (.obj [("id", i), ("sipUri", s)])
  else if lower = "retell" then do
    let i ← result.getField "last_modification_timestamp"
    pure (.obj [("id", i),
      ("sipUri", .str ("sip:" ++ number ++ "@5t4n6j0wnrl.sip.livekit.cloud:5060;transport=tcp"))])
  else if lower = "11labs" || lower = "elevenlabs" then do
    let t ← result.getField "termination_uri"
    let s2 ← result.getField "sip_uri"
    let bare := if number.startsWith "+" then number.drop 1 else number
    let fallbackUri := JsVal.str ("sip:" ++ bare ++ "@sip.rtc.elevenlabs.io:5060;transport=tcp")
    let i1 ← result.getField "id"
    let i2 ← result.getField "phone_number_id"
    pure (.obj [("id", jsOr i1 i2), ("sipUri", jsOr t (jsOr s2 fallbackUri))])
  else
    pure (.obj [("id", .str ""), ("sipUri", .str "")])

/-- `addNumberCommand({domain, provider, number})`: the stored file after the
command, where `addResult` is the outcome of the provider's add/import call.
Every `process.exit(1)` path leaves the store as it is at that moment. -/
def addNumberCommand (providerRaw domain number : String)
    (addResult : Except Unit JsVal) (file : Config) : Config :=
  let cfg := getConfig file
  match alookup domain cfg.domains with
  | none => file
  | some dc =>
    match getProviderConfigKey providerRaw with
    | none => file
    | some configKey =>
      let file1 := providerCtorWrite configKey file
      let lower := jsToLower providerRaw
      if lower = "vapi" && (alookup "vapi" dc.providerSections).isNone then file1
      else if (lower = "11labs" || lower = "elevenlabs")
          && !((dc.inboundSipUri.map (fun s => !s.isEmpty)).getD false) then file1
      else
        match addResult with
        | .error _ => file1
        | .ok result =>
          match addNumberRecord lower number result with
          | .error _ => file1
          | .ok rec =>
            let sec := (alookup lower dc.providerSections).getD ({} : ProviderSection)
            let pns := sec.phoneNumbers.getD []
            let sec := { sec with phoneNumbers := some (aupdate number rec pns) }
            let dc := { dc with providerSections := aupdate lower sec dc.providerSections }
            { cfg with domains := aupdate domain dc cfg.domains }

example : (1 : Nat) + 1 = 2 := rfl

/-! ## Membership predicates used by the theorems -/

/-- `n` is a key of the phone map of an optional provider section. -/
def sectionHasNum (os : Option ProviderSection) (n : String) : Bool :=
  match os with
  | some s =>
    match s.phoneNumbers with
    | some pns => (alookup n pns).isSome
    | none => false
  | none => false

/-- `n` is a key of the global map `syncCommand` hands over as
`providerConfig`. -/
def cfgGlobalNum (c : Config) (p : Provider) (n : String) : Bool :=
  sectionHasNum (alookup p.globalKey c.providerSections) n

/-- `n` inside domain record `dc` under one of the given keys. -/
def keysHaveNum (keys : List String) (dc : DomainConfig) (n : String) : Bool :=
  keys.any fun k => sectionHasNum (alookup k dc.providerSections) n

/-- `n` inside domain record `dc` under one of this provider's keys. -/
def domainHasNum (p : Provider) (dc : DomainConfig) (n : String) : Bool :=
  keysHaveNum p.configKeys dc n

/-- `n` under domain name `d` of config `c` (first binding). -/
def cfgDomainNum (c : Config) (p : Provider) (d n : String) : Bool :=
  match alookup d c.domains with
  | some dc => domainHasNum p dc n
  | none => false

/-- Value written by the unfiltered walk for an already-present number. -/
def pfVal (dom : String) (old : Option String) : Option String :=
  match old with
  | none => some dom
  | some d => if d = "global" then some dom else some d

/-! ## Views of a configuration used by the removal-loop lemmas -/

/-- Record of `n` in an optional section's phone map. -/
def sectionNumLookup (os : Option ProviderSection) (n : String) : Option JsVal :=
  match os with
  | some s =>
    match s.phoneNumbers with
    | some pns => alookup n pns
    | none => none
  | none => none

/-- Truthiness of that record (`config[...].phoneNumbers[number]` guard). -/
def sectionNumTruthy (os : Option ProviderSection) (n : String) : Bool :=
  match sectionNumLookup os n with
  | some v => v.truthy
  | none => false

/-- Record used by the concrete witnesses. -/
def recW : JsVal := .obj [("id", .str "w1"), ("sipUri", .str "sip:w")]

/-- Witness store for scope isolation: number `+1` only under domain `D`. -/
def storeW4 : Config :=
  { domains := [("D", { providerSections := [("retell",
      { phoneNumbers := some [("+1", recW)] })] }),
     ("E", {})]
    providerSections := [] }

/-! ## Concrete stores for the claim evaluations -/

/-- Store with one 11Labs number recorded under domain `example.com` and an
11Labs API key configured. -/
def storeC1 : Config :=
  { domains := [("example.com",
      { inboundSipUri := some "x.sip.cloudonix.net"
        providerSections := [("elevenlabs", { phoneNumbers := some [("+19995551111", recW)] })] })]
    providerSections := [
      ("vapi", { apiKey := some "", apiUrl := some "" }),
      ("retell", { apiKey := some "", apiUrl := some "" }),
      ("elevenlabs", { apiKey := some "ek" })] }

/-- Store with one VAPI number recorded only in the global map. -/
def storeC2 : Config :=
  { domains := []
    providerSections := [
      ("vapi", { apiKey := some "k", apiUrl := some "u",
                 phoneNumbers := some [("+12025551234", recW)] }),
      ("retell", { apiKey := some "", apiUrl := some "" }),
      ("elevenlabs", { apiKey := some "" })] }

/-- A stored file that is not in `getConfig`-normalized form: only a `retell`
section (no `apiUrl`), one Retell number under domain `example.com`. -/
def storeC3 : Config :=
  { domains := [("example.com",
      { providerSections := [("retell", { phoneNumbers := some [("+19995551111", recW)] })] })]
    providerSections := [("retell", { apiKey := some "k" })] }

/-- Result object returned by the 11Labs add-number call in the alias test. -/
def addResW : JsVal := .obj [("phone_number_id", .str "pid"), ("termination_uri", .str "sip:t")]

/-! ## Claim C9: verifyApiKey behavior -/

/-- The behavior the claim asserts: an authentication error exactly on
HTTP 401/403, `true` on every other error outcome. -/
def claimedVerifyApiKey (o : ApiOutcome) : VerifyResult :=
  match o with
  | .success => .valid
  | .httpError s => if s = 401 || s = 403 then .authError else .valid
  | .transportError => .valid

/-! ## Claim C8: normalization totality -/

/-- Total field access, the value JS property lookup yields on an object
that is not `null`/`undefined`. -/
def fieldD (it : JsVal) (f : String) : JsVal :=
  match it with
  | .obj fs => (fs.lookup f).getD .undefined
  | _ => .undefined 

/-- An entry on which property access cannot throw. -/
def jsNonNull (it : JsVal) : Bool :=
  match it with
  | .null => false
  | .undefined => false
  | _ => true

/-- The canonical numbers the per-provider extraction policy yields, as a
total function (defined for arrays of non-null entries). -/
def canonicalRemoteNumbers (p : Provider) (items : List JsVal) : List JsVal :=
  (match p with
   | .vapi =>
     (items.filter (fun it => (fieldD it "provider").strictEqStr "byo-phone-number")).map
       (fun it => fieldD it "number")
   | .retell =>
     items.map (fun it =>
       jsOr (fieldD it "phone_number") (jsOr (fieldD it "phoneNumber") (.str "")))
   | .labs11 =>
     items.map (fun it =>
       jsOr (fieldD it "phone_number")
         (jsOr (fieldD it "phoneNumber") (jsOr (fieldD it "number") (.str ""))))).filter
    JsVal.truthy

/-- Keys-nodup of a phone map at a section. -/
def mapKeysNodupAt (secs : List (String × ProviderSection)) (k : String) : Prop :=
  ∀ s pns, alookup k secs = some s → s.phoneNumbers = some pns →
    (pns.map Prod.fst).Nodup

/-! ## More removal lemmas: invariants, flags, domain kill -/

/-- Phone map of the section bound at `k`. -/
def secNumsAt (secs : List (String × ProviderSection)) (k : String) : Option PNMap :=
  match alookup k secs with
  | some s => s.phoneNumbers
  | none => none

/-- Keys-nodup of the phone map of domain `d`'s section at `k`, as a
configuration invariant. -/
def domMapNodup (c : Config) (d k : String) : Prop :=
  ∀ dc, alookup d c.domains = some dc → mapKeysNodupAt dc.providerSections k

/-- Phone map holding the dual-scope witness number. -/
def pnsC5 : PNMap := [("+15550001111", recW)]

/-- Domain-level vapi section of the dual-scope witness store. -/
def secC5 : ProviderSection := { apiKey := some "k", phoneNumbers := some pnsC5 }

/-- Domain record of the dual-scope witness store. -/
def dcC5 : DomainConfig := { providerSections := [("vapi", secC5)] }

/-- Global vapi section of the dual-scope witness store. -/
def secC5g : ProviderSection :=
  { apiKey := some "k", apiUrl := some "u", phoneNumbers := some pnsC5 }

/-- Dual-scope witness store: the number is in the global vapi map and in
`example.com`'s vapi map. -/
def storeC5 : Config :=
  { domains := [("example.com", dcC5)]
    providerSections := [("vapi", secC5g)] }

/-- The final-save object may differ from the loaded one only by entry
deletions inside a `phoneNumbers` map. -/
def pnPruned : Option PNMap → Option PNMap → Prop
  | none, none => True
  | some x, some y => x.Sublist y
  | some _, none => False
  | none, some _ => False

/-- Section credentials unchanged, phone map only pruned. -/
def secPruned (s s' : ProviderSection) : Prop :=
  s.apiKey = s'.apiKey ∧ s.apiUrl = s'.apiUrl ∧
  s.trunkCredentialId = s'.trunkCredentialId ∧
  pnPruned s.phoneNumbers s'.phoneNumbers

/-- Section lists with identical keys and pointwise pruned sections. -/
def secsPruned (l l' : List (String × ProviderSection)) : Prop :=
  List.Forall₂ (fun e e' => e.1 = e'.1 ∧ secPruned e.2 e'.2) l l'

/-- Domain metadata unchanged, provider sections pruned. -/
def dcPruned (dc dc' : DomainConfig) : Prop :=
  dc.inboundSipUri = dc'.inboundSipUri ∧ dc.apiKey = dc'.apiKey ∧
  dc.aliasName = dc'.aliasName ∧ dc.tenant = dc'.tenant ∧
  secsPruned dc.providerSections dc'.providerSections

/-- Whole-config frame relation of one reconciliation pass. -/
def configPruned (c c' : Config) : Prop :=
  List.Forall₂ (fun e e' => e.1 = e'.1 ∧ dcPruned e.2 e'.2) c.domains c'.domains ∧
  secsPruned c.providerSections c'.providerSections

/-- `config.domains[d][k]?.phoneNumbers?.[n]` is a truthy record. -/
def cfgEntryTruthy (c : Config) (d k n : String) : Bool :=
  match alookup d c.domains with
  | some dc => secEntryTruthy dc.providerSections k n
  | none => false

/-- Whether processing number `n` in the removal loop (no domain filter) would
fire the domain-deletion branch on configuration `c`. -/
def removalFire (p : Provider) (pf : List (String × String)) (c : Config)
    (n : String) : Bool :=
  match alookup n pf with
  | some d =>
    if d.isEmpty then false
    else
      match alookup d c.domains with
      | some dc => p.configKeys.any (fun k => secEntryTruthy dc.providerSections k n)
      | none => false
  | none => false

/-! ## Association-list lemmas -/

theorem alookup_aupdate_self (k : String) (v : α) (l : List (String × α)) :
    alookup k (aupdate k v l) = some v := by
  induction l with
  | nil => simp [aupdate, alookup]
  | cons hd t ih =>
    obtain ⟨k0, v0⟩ := hd
    by_cases hk : k0 = k
    · simp [aupdate, hk, alookup]
    · simp [aupdate, hk, alookup, ih]

theorem alookup_aupdate_ne (hk : k' ≠ k) (v : α) (l : List (String × α)) :
    alookup k' (aupdate k v l) = alookup k' l := by
  induction l with
  | nil => simp [aupdate, alookup, Ne.symm hk]
  | cons hd t ih =>
    obtain ⟨k0, v0⟩ := hd
    by_cases h1 : k0 = k
    · subst h1
      simp [aupdate, alookup, Ne.symm hk, hk]
    · by_cases h2 : k0 = k'
      · simp [aupdate, h1, alookup, h2, hk]
      · simp [aupdate, h1, alookup, h2, ih]

theorem alookup_adel_ne (hk : k' ≠ k) (l : List (String × α)) :
    alookup k' (adel k l) = alookup k' l := by
  induction l with
  | nil => simp [adel]
  | cons hd t ih =>
    obtain ⟨k0, v0⟩ := hd
    by_cases h1 : k0 = k
    · subst h1
      simp [adel, alookup, Ne.symm hk]
    · by_cases h2 : k0 = k'
      · simp [adel, h1, alookup, h2, hk]
      · simp [adel, h1, alookup, h2, ih]

theorem alookup_isSome_iff (n : String) (l : List (String × α)) :
    (alookup n l).isSome ↔ n ∈ l.map Prod.fst := by
  induction l with
  | nil => simp [alookup]
  | cons hd t ih =>
    obtain ⟨k0, v0⟩ := hd
    by_cases h1 : k0 = n
    · simp [alookup, h1]
    · simp [alookup, h1, ih, Ne.symm h1]

/-! ## Component lemmas for the local-set construction -/

theorem addNums_numSet (u : String → List (String × String) → List (String × String))
    (pns : PNMap) (acc : LocalAcc) :
    (addNums u pns acc).numSet = pns.foldl (fun s nv => setAdd nv.1 s) acc.numSet := by
  induction pns generalizing acc with
  | nil => rfl
  | cons hd t ih => simp [addNums, List.foldl] at ih ⊢; exact ih _

theorem addNums_pf (u : String → List (String × String) → List (String × String))
    (pns : PNMap) (acc : LocalAcc) :
    (addNums u pns acc).phonesForDomain =
      pns.foldl (fun pf nv => u nv.1 pf) acc.phonesForDomain := by
  induction pns generalizing acc with
  | nil => rfl
  | cons hd t ih => simp [addNums, List.foldl] at ih ⊢; exact ih _

theorem mem_setAdd (m n : String) (l : List String) :
    m ∈ setAdd n l ↔ m ∈ l ∨ m = n := by
  by_cases h : n ∈ l
  · rw [setAdd, if_pos (List.elem_iff.mpr h)]
    constructor
    · exact Or.inl
    · rintro (hm | rfl)
      · exact hm
      · exact h
  · rw [setAdd, if_neg (fun hc => h (List.elem_iff.mp hc))]
    simp

theorem mem_foldl_setAdd (m : String) (pns : PNMap) (s : List String) :
    m ∈ pns.foldl (fun s nv => setAdd nv.1 s) s ↔
      m ∈ s ∨ (alookup m pns).isSome := by
  induction pns generalizing s with
  | nil => simp [alookup]
  | cons hd t ih =>
    obtain ⟨k0, v0⟩ := hd
    by_cases h : k0 = m
    · subst h
      simp [List.foldl, ih, mem_setAdd, alookup]
    · rw [List.foldl, ih, mem_setAdd]
      simp only [alookup, if_neg h]
      constructor
      · rintro ((hm | rfl) | hs)
        · exact Or.inl hm
        · exact absurd rfl h
        · exact Or.inr hs
      · rintro (hm | hs)
        · exact Or.inl (Or.inl hm)
        · exact Or.inr hs

/-! ## Characterizing `buildLocal` -/

theorem addGlobalNums_numSet_mem (pc : ProviderSection) (acc : LocalAcc) (n : String) :
    n ∈ (addGlobalNums pc acc).numSet ↔
      n ∈ acc.numSet ∨ sectionHasNum (some pc) n := by
  cases hpc : pc.phoneNumbers with
  | none => simp [addGlobalNums, hpc, sectionHasNum]
  | some pns =>
    simp [addGlobalNums, hpc, sectionHasNum, addNums_numSet, mem_foldl_setAdd]

theorem addKeyedNums_numSet_mem
    (u : String → List (String × String) → List (String × String))
    (keys : List String) (dc : DomainConfig) (acc : LocalAcc) (n : String) :
    n ∈ (addKeyedNums u keys dc acc).numSet ↔
      n ∈ acc.numSet ∨ keysHaveNum keys dc n := by
  induction keys generalizing acc with
  | nil => simp [addKeyedNums, keysHaveNum]
  | cons k ks ih =>
    have step : addKeyedNums u (k :: ks) dc acc =
        addKeyedNums u ks dc
          (match alookup k dc.providerSections with
           | some s =>
             match s.phoneNumbers with
             | some pns => addNums u pns acc
             | none => acc
           | none => acc) := rfl
    rw [step, ih]
    have hkeys : keysHaveNum (k :: ks) dc n =
        (sectionHasNum (alookup k dc.providerSections) n || keysHaveNum ks dc n) := by
      simp [keysHaveNum, List.any_cons]
    rw [hkeys]
    cases hks : alookup k dc.providerSections with
    | none => simp [sectionHasNum]
    | some s =>
      cases hpns : s.phoneNumbers with
      | none => simp [sectionHasNum, hpns]
      | some pns =>
        simp only [sectionHasNum, hpns, addNums_numSet, mem_foldl_setAdd, Bool.or_eq_true]
        tauto

theorem domainsFold_numSet_mem (p : Provider) (ds : List (String × DomainConfig))
    (acc : LocalAcc) (n : String) :
    n ∈ (ds.foldl (fun a e => addDomainNumsAll p e.1 e.2 a) acc).numSet ↔
      n ∈ acc.numSet ∨ ds.any (fun e => domainHasNum p e.2 n) := by
  induction ds generalizing acc with
  | nil => simp
  | cons e es ih =>
    rw [List.foldl_cons, ih]
    rw [show addDomainNumsAll p e.1 e.2 acc = addKeyedNums (pfKeepDomain e.1) p.configKeys e.2 acc from rfl]
    rw [addKeyedNums_numSet_mem]
    simp only [List.any_cons, Bool.or_eq_true, domainHasNum]
    tauto

/-! ## Characterizing `phonesForDomain` -/

theorem alookup_pfKeepDomain_ne (dom m : String) (pf : List (String × String))
    (n : String) (h : m ≠ n) :
    alookup n (pfKeepDomain dom m pf) = alookup n pf := by
  unfold pfKeepDomain
  cases alookup m pf with
  | none => exact alookup_aupdate_ne (Ne.symm h) _ _
  | some d =>
    by_cases hd : d = "global"
    · simp only [hd, if_pos rfl]
      exact alookup_aupdate_ne (Ne.symm h) _ _
    · simp only [if_neg hd]

theorem alookup_pfKeepDomain_self (dom n : String) (pf : List (String × String)) :
    alookup n (pfKeepDomain dom n pf) = pfVal dom (alookup n pf) := by
  unfold pfKeepDomain pfVal
  cases h : alookup n pf with
  | none => exact alookup_aupdate_self _ _ _
  | some d =>
    by_cases hd : d = "global"
    · simp only [hd, if_pos rfl]
      exact alookup_aupdate_self _ _ _
    · simp only [if_neg hd]
      exact h

theorem pfVal_idem (dom : String) (o : Option String) :
    pfVal dom (pfVal dom o) = pfVal dom o := by
  have hbase : pfVal dom (some dom) = some dom := by
    unfold pfVal
    by_cases hg : dom = "global" <;> simp [hg]
  cases o with
  | none => simp only [pfVal]; exact hbase
  | some d =>
    by_cases hd : d = "global"
    · simp only [pfVal, hd, if_pos rfl]; exact hbase
    · simp [pfVal, hd]

/-- One phone map, constant-domain write (`aupdate nv.1 f`). -/
theorem foldl_aupdate_const (f : String) (pns : PNMap)
    (pf0 : List (String × String)) (n : String) :
    alookup n (pns.foldl (fun pf nv => aupdate nv.1 f pf) pf0) =
      if (alookup n pns).isSome then some f else alookup n pf0 := by
  induction pns generalizing pf0 with
  | nil => simp [alookup]
  | cons hd t ih =>
    obtain ⟨k0, v0⟩ := hd
    by_cases h : k0 = n
    · subst h
      rw [List.foldl_cons, ih]
      simp only [alookup, if_pos rfl, Option.isSome_some, if_true]
      split
      · rfl
      · exact alookup_aupdate_self _ _ _
    · rw [List.foldl_cons, ih, alookup_aupdate_ne (Ne.symm h)]
      simp only [alookup, if_neg h]

/-- One phone map, `pfKeepDomain dom` write. -/
theorem foldl_pfKeep (dom : String) (pns : PNMap)
    (pf0 : List (String × String)) (n : String) :
    alookup n (pns.foldl (fun pf nv => pfKeepDomain dom nv.1 pf) pf0) =
      if (alookup n pns).isSome then pfVal dom (alookup n pf0)
      else alookup n pf0 := by
  induction pns generalizing pf0 with
  | nil => simp [alookup]
  | cons hd t ih =>
    obtain ⟨k0, v0⟩ := hd
    by_cases h : k0 = n
    · subst h
      rw [List.foldl_cons, ih, alookup_pfKeepDomain_self]
      simp only [alookup, if_pos rfl, Option.isSome_some, if_true]
      split
      · exact pfVal_idem _ _
      · rfl
    · rw [List.foldl_cons, ih, alookup_pfKeepDomain_ne _ _ _ _ h]
      simp only [alookup, if_neg h]

/-- Filtered-domain walk over config keys: present numbers map to `f`. -/
theorem addKeyedFiltered_pf (f : String) (keys : List String) (dc : DomainConfig)
    (acc : LocalAcc) (n : String) :
    alookup n (addKeyedNums (fun m pf => aupdate m f pf) keys dc acc).phonesForDomain =
      if keysHaveNum keys dc n then some f
      else alookup n acc.phonesForDomain := by
  induction keys generalizing acc with
  | nil => simp [addKeyedNums, keysHaveNum]
  | cons k ks ih =>
    have step : addKeyedNums (fun m pf => aupdate m f pf) (k :: ks) dc acc =
        addKeyedNums (fun m pf => aupdate m f pf) ks dc
          (match alookup k dc.providerSections with
           | some s =>
             match s.phoneNumbers with
             | some pns => addNums (fun m pf => aupdate m f pf) pns acc
             | none => acc
           | none => acc) := rfl
    rw [step, ih]
    have hkeys : keysHaveNum (k :: ks) dc n =
        (sectionHasNum (alookup k dc.providerSections) n || keysHaveNum ks dc n) := by
      simp [keysHaveNum, List.any_cons]
    rw [hkeys]
    cases hks : alookup k dc.providerSections with
    | none => simp [sectionHasNum]
    | some s =>
      cases hpns : s.phoneNumbers with
      | none => simp [sectionHasNum, hpns]
      | some pns =>
        simp only [sectionHasNum, hpns, addNums_pf, foldl_aupdate_const, Bool.or_eq_true]
        by_cases h1 : (alookup n pns).isSome <;> by_cases h2 : keysHaveNum ks dc n <;>
          simp [h1, h2]

/-- Unfiltered walk over config keys: present numbers get `pfVal dom`. -/
theorem addKeyedAll_pf (dom : String) (keys : List String) (dc : DomainConfig)
    (acc : LocalAcc) (n : String) :
    alookup n (addKeyedNums (pfKeepDomain dom) keys dc acc).phonesForDomain =
      if keysHaveNum keys dc n then pfVal dom (alookup n acc.phonesForDomain)
      else alookup n acc.phonesForDomain := by
  induction keys generalizing acc with
  | nil => simp [addKeyedNums, keysHaveNum]
  | cons k ks ih =>
    have step : addKeyedNums (pfKeepDomain dom) (k :: ks) dc acc =
        addKeyedNums (pfKeepDomain dom) ks dc
          (match alookup k dc.providerSections with
           | some s =>
             match s.phoneNumbers with
             | some pns => addNums (pfKeepDomain dom) pns acc
             | none => acc
           | none => acc) := rfl
    rw [step, ih]
    have hkeys : keysHaveNum (k :: ks) dc n =
        (sectionHasNum (alookup k dc.providerSections) n || keysHaveNum ks dc n) := by
      simp [keysHaveNum, List.any_cons]
    rw [hkeys]
    cases hks : alookup k dc.providerSections with
    | none => simp [sectionHasNum]
    | some s =>
      cases hpns : s.phoneNumbers with
      | none => simp [sectionHasNum, hpns]
      | some pns =>
        simp only [sectionHasNum, hpns, addNums_pf, foldl_pfKeep, Bool.or_eq_true]
        by_cases h1 : (alookup n pns).isSome <;> by_cases h2 : keysHaveNum ks dc n <;>
          simp [h1, h2, pfVal_idem]

/-- The unfiltered walk over all domains, as a pure fold on the tracked
domain of `n`. -/
theorem domainsFold_pf (p : Provider) (ds : List (String × DomainConfig))
    (acc : LocalAcc) (n : String) :
    alookup n ((ds.foldl (fun a e => addDomainNumsAll p e.1 e.2 a) acc)).phonesForDomain =
      ds.foldl (fun o e => if domainHasNum p e.2 n then pfVal e.1 o else o)
        (alookup n acc.phonesForDomain) := by
  induction ds generalizing acc with
  | nil => simp
  | cons e es ih =>
    rw [List.foldl_cons, ih, List.foldl_cons]
    rw [show addDomainNumsAll p e.1 e.2 acc = addKeyedNums (pfKeepDomain e.1) p.configKeys e.2 acc from rfl]
    rw [addKeyedAll_pf]
    rfl

theorem globalNumLookup_eq (c : Config) (k n : String) :
    globalNumLookup c k n = sectionNumLookup (alookup k c.providerSections) n := by
  unfold globalNumLookup sectionNums sectionNumLookup
  cases alookup k c.providerSections with
  | none => rfl
  | some s => cases s.phoneNumbers <;> rfl

theorem domainNumLookup_eq (c : Config) (d k n : String) :
    domainNumLookup c d k n =
      (match alookup d c.domains with
       | some dc => sectionNumLookup (alookup k dc.providerSections) n
       | none => none) := by
  unfold domainNumLookup sectionNumLookup
  cases alookup d c.domains with
  | none => rfl
  | some dc =>
    cases alookup k dc.providerSections with
    | none => rfl
    | some s => cases s.phoneNumbers <;> rfl

/-! ## Preservation: deleting `m` never touches another number `n` -/

theorem alookup_adel_isSome (m n : String) (l : List (String × α)) :
    (alookup n (adel m l)).isSome → (alookup n l).isSome := by
  induction l with
  | nil => simp [adel]
  | cons hd t ih =>
    obtain ⟨k0, v0⟩ := hd
    by_cases h1 : k0 = m
    · intro hs
      by_cases h2 : k0 = n
      · simp [alookup, h2]
      · simp only [adel, if_pos h1] at hs
        simp only [alookup, if_neg h2]
        exact hs
    · by_cases h2 : k0 = n
      · simp [adel, h1, alookup, h2]
      · simp only [adel, if_neg h1, alookup, if_neg h2]
        exact ih

theorem removeNumStep_pres (m n : String) (secs : List (String × ProviderSection))
    (k : String) (hmn : m ≠ n) (k' : String) :
    sectionNumLookup (alookup k' (removeNumStep m secs k)) n =
      sectionNumLookup (alookup k' secs) n := by
  unfold removeNumStep
  split
  · rename_i sec heq
    split
    · rename_i pns hpns
      split
      · rename_i hg
        by_cases hkk : k = k'
        · subst hkk
          rw [alookup_aupdate_self, heq]
          simp only [sectionNumLookup, hpns]
          exact alookup_adel_ne (Ne.symm hmn) pns
        · rw [alookup_aupdate_ne (Ne.symm hkk)]
      · rfl
    · rfl
  · rfl

theorem removeNumFromSections_pres (keys : List String) (m n : String)
    (secs : List (String × ProviderSection)) (hmn : m ≠ n) (k' : String) :
    sectionNumLookup (alookup k' (removeNumFromSections keys m secs)) n =
      sectionNumLookup (alookup k' secs) n := by
  induction keys generalizing secs with
  | nil => rfl
  | cons k ks ih =>
    rw [show removeNumFromSections (k :: ks) m secs =
        removeNumFromSections ks m (removeNumStep m secs k) from rfl]
    rw [ih, removeNumStep_pres _ _ _ _ hmn]

theorem removeNumFromDomain_pres (keys : List String) (m n : String)
    (dc : DomainConfig) (hmn : m ≠ n) (k' : String) :
    sectionNumLookup (alookup k' (removeNumFromDomain keys m dc).1.providerSections) n =
      sectionNumLookup (alookup k' dc.providerSections) n := by
  suffices h : ∀ st : DomainConfig × Bool,
      sectionNumLookup (alookup k'
        (keys.foldl (fun dcr k =>
          if secEntryTruthy dcr.1.providerSections k m then
            ({ dcr.1 with providerSections := removeNumStep m dcr.1.providerSections k },
             true)
          else dcr) st).1.providerSections) n =
      sectionNumLookup (alookup k' st.1.providerSections) n by
    exact h (dc, false)
  induction keys with
  | nil => intro st; rfl
  | cons k ks ih =>
    intro st
    rw [List.foldl_cons, ih]
    by_cases hg : secEntryTruthy st.1.providerSections k m
    · simp only [if_pos hg]
      exact removeNumStep_pres _ _ _ _ hmn _
    · simp only [if_neg hg]

theorem removalStep_pres (p : Provider) (df : Option String)
    (pf : List (String × String)) (st : Config × Nat) (m n : String) (hmn : m ≠ n) :
    (∀ k, globalNumLookup (removalStep p df pf st m).1 k n = globalNumLookup st.1 k n) ∧
    (∀ d k, domainNumLookup (removalStep p df pf st m).1 d k n =
      domainNumLookup st.1 d k n) := by
  unfold removalStep
  by_cases hskip : removalSkip df (alookup m pf)
  · rw [if_pos hskip]
    exact ⟨fun _ => rfl, fun _ _ => rfl⟩
  · rw [if_neg hskip]
    unfold removalApply
    have hg : ∀ c2 : Config,
        c2.providerSections = removeNumFromSections p.configKeys m st.1.providerSections →
        ∀ k, globalNumLookup c2 k n = globalNumLookup st.1 k n := by
      intro c2 hc k
      rw [globalNumLookup_eq, globalNumLookup_eq, hc]
      exact removeNumFromSections_pres _ _ _ _ hmn _
    cases hdom : alookup m pf with
    | none =>
      simp only [hdom]
      exact ⟨hg _ rfl, fun d' k => by rw [domainNumLookup_eq, domainNumLookup_eq]⟩
    | some d =>
      simp only [hdom]
      by_cases hde : d.isEmpty
      · rw [if_pos hde]
        exact ⟨hg _ rfl, fun d' k => by rw [domainNumLookup_eq, domainNumLookup_eq]⟩
      · rw [if_neg hde]
        cases hdc : alookup d st.1.domains with
        | none =>
          simp only [hdc]
          exact ⟨hg _ rfl, fun d' k => by rw [domainNumLookup_eq, domainNumLookup_eq]⟩
        | some dc =>
          simp only [hdc]
          refine ⟨hg _ rfl, fun d' k => ?_⟩
          rw [domainNumLookup_eq, domainNumLookup_eq]
          simp only
          by_cases hdd : d = d'
          · subst hdd
            rw [alookup_aupdate_self, hdc]
            exact removeNumFromDomain_pres _ _ _ _ hmn _
          · rw [alookup_aupdate_ne (Ne.symm hdd)]

theorem removalLoop_pres (p : Provider) (df : Option String)
    (pf : List (String × String)) (ns : List String) (st : Config × Nat)
    (n : String) (hn : n ∉ ns) :
    (∀ k, globalNumLookup (ns.foldl (removalStep p df pf) st).1 k n =
      globalNumLookup st.1 k n) ∧
    (∀ d k, domainNumLookup (ns.foldl (removalStep p df pf) st).1 d k n =
      domainNumLookup st.1 d k n) := by
  induction ns generalizing st with
  | nil => exact ⟨fun _ => rfl, fun _ _ => rfl⟩
  | cons m ms ih =>
    have hmn : m ≠ n := fun h => hn (h ▸ List.mem_cons_self m ms)
    have hn' : n ∉ ms := fun h => hn (List.mem_cons_of_mem _ h)
    rw [List.foldl_cons]
    obtain ⟨ihg, ihd⟩ := ih (removalStep p df pf st m) hn'
    obtain ⟨sg, sd⟩ := removalStep_pres p df pf st m n hmn
    exact ⟨fun k => (ihg k).trans (sg k), fun d k => (ihd d k).trans (sd d k)⟩

/-! ## Bridging lemmas -/

theorem sectionHasNum_eq_isSome (os : Option ProviderSection) (n : String) :
    sectionHasNum os n = (sectionNumLookup os n).isSome := by
  unfold sectionHasNum sectionNumLookup
  cases os with
  | none => rfl
  | some s =>
    obtain ⟨ak, au, tc, pn⟩ := s
    cases pn <;> rfl

theorem providerConfig_has_eq (c : Config) (p : Provider) (n : String) :
    sectionHasNum (some (providerConfigOf p c)) n =
      (globalNumLookup c p.globalKey n).isSome := by
  unfold providerConfigOf
  rw [globalNumLookup_eq, sectionHasNum_eq_isSome]
  cases alookup p.globalKey c.providerSections with
  | none => rfl
  | some s => rfl

theorem getConfig_domains (f : Config) : (getConfig f).domains = f.domains := rfl

theorem providerFetch_domains (p : Provider) (ro : Except Unit JsVal) (f : Config) :
    (providerFetch p ro f).1.domains = f.domains := by
  cases p <;> rfl

theorem domainNumLookup_congr {c c' : Config} (h : c.domains = c'.domains)
    (d k n : String) : domainNumLookup c d k n = domainNumLookup c' d k n := by
  rw [domainNumLookup_eq, domainNumLookup_eq, h]

theorem globalNumLookup_getConfig (f : Config) (k n : String) :
    globalNumLookup (getConfig f) k n =
      if "vapi" = k then globalNumLookup f "vapi" n
      else if "retell" = k then globalNumLookup f "retell" n
      else none := by
  rw [globalNumLookup_eq, globalNumLookup_eq, globalNumLookup_eq]
  show sectionNumLookup
      (alookup k [("vapi", mergeSection (alookup "vapi" f.providerSections)),
        ("retell", mergeSection (alookup "retell" f.providerSections)),
        ("elevenlabs", elevenLoadSection (alookup "elevenlabs" f.providerSections))]) n = _
  by_cases h1 : "vapi" = k
  · simp only [alookup, if_pos h1, if_pos h1]
    cases alookup "vapi" f.providerSections with
    | none => rfl
    | some s => simp only [sectionNumLookup, mergeSection]
  · by_cases h2 : "retell" = k
    · simp only [alookup, if_neg h1, if_pos h2, if_neg h1]
      cases alookup "retell" f.providerSections with
      | none => rfl
      | some s => simp only [sectionNumLookup, mergeSection]
    · by_cases h3 : "elevenlabs" = k
      · simp only [alookup, if_neg h1, if_neg h2, if_pos h3]
        rfl
      · simp only [alookup, if_neg h1, if_neg h2, if_neg h3]
        rfl

/-! ## Inverting `syncPath` and `buildLocal` -/

theorem syncPath_removal_inv {p : Provider} {df : Option String}
    {ro : Except Unit JsVal} {file : Config} {acc : LocalAcc} {rn : List JsVal}
    (h : syncPath p df ro file = .removalPhase acc rn) :
    buildLocal p (getConfig file) (providerConfigOf p (getConfig file)) df = .ok acc ∧
    remoteNumsOf p ro file = .ok rn := by
  unfold syncPath at h
  simp only at h
  by_cases h1 : hasPhoneNumbers p (getConfig file) (providerConfigOf p (getConfig file)) df
  · simp only [h1, Bool.not_true, if_neg] at h
    cases hb : buildLocal p (getConfig file) (providerConfigOf p (getConfig file)) df with
    | error e => rw [hb] at h; exact absurd h (by simp)
    | ok acc0 =>
      rw [hb] at h
      simp only at h
      by_cases h2 : df.isSome && acc0.numSet.isEmpty
      · simp only [h2, if_pos] at h
        exact absurd h (by simp)
      · simp only [h2, if_neg] at h
        cases hr : remoteNumsOf p ro file with
        | error e => rw [hr] at h; exact absurd h (by simp)
        | ok rns =>
          rw [hr] at h
          simp only at h
          cases h
          exact ⟨rfl, rfl⟩
  · have h1f : hasPhoneNumbers p (getConfig file) (providerConfigOf p (getConfig file)) df
        = false := by
      exact Bool.not_eq_true _ ▸ eq_false_of_ne_true h1
    rw [h1f] at h
    exact absurd h (by simp)

theorem buildLocal_filtered_inv {p : Provider} {cfg : Config} {pc : ProviderSection}
    {f : String} {acc : LocalAcc}
    (h : buildLocal p cfg pc (some f) = .ok acc) :
    ∃ dc, alookup f cfg.domains = some dc ∧
      acc = addDomainNumsFiltered p f dc (addGlobalNums pc ⟨[], []⟩) := by
  unfold buildLocal at h
  cases hdc : alookup f cfg.domains with
  | none =>
    simp only [hdc] at h
    exact absurd h (by simp)
  | some dc =>
    simp only [hdc] at h
    cases h
    exact ⟨dc, rfl, rfl⟩

theorem buildLocal_unfiltered_inv {p : Provider} {cfg : Config}
    {pc : ProviderSection} {acc : LocalAcc}
    (h : buildLocal p cfg pc none = .ok acc) :
    acc = cfg.domains.foldl (fun a d => addDomainNumsAll p d.1 d.2 a)
      (addGlobalNums pc ⟨[], []⟩) := by
  unfold buildLocal at h
  cases h
  rfl

/-- Non-membership in the filtered local set. -/
theorem buildLocal_filtered_not_mem {p : Provider} {cfg : Config}
    {pc : ProviderSection} {f : String} {acc : LocalAcc} {n : String}
    (hok : buildLocal p cfg pc (some f) = .ok acc)
    (hg : sectionHasNum (some pc) n = false)
    (hd : ∀ k, domainNumLookup cfg f k n = none) :
    n ∉ acc.numSet := by
  obtain ⟨dc, hdc, rfl⟩ := buildLocal_filtered_inv hok
  intro hmem
  rw [show addDomainNumsFiltered p f dc (addGlobalNums pc ⟨[], []⟩) =
      addKeyedNums (fun m pf => aupdate m f pf) p.configKeys dc
        (addGlobalNums pc ⟨[], []⟩) from rfl] at hmem
  rw [addKeyedNums_numSet_mem, addGlobalNums_numSet_mem] at hmem
  rcases hmem with ((hnil | hsec) | hkeys)
  · simp at hnil
  · rw [hg] at hsec; exact absurd hsec (by simp)
  · unfold keysHaveNum at hkeys
    rw [List.any_eq_true] at hkeys
    obtain ⟨k, _, hk⟩ := hkeys
    rw [sectionHasNum_eq_isSome] at hk
    have h0 := hd k
    rw [domainNumLookup_eq, hdc] at h0
    have h1 : sectionNumLookup (alookup k dc.providerSections) n = none := h0
    rw [h1] at hk
    exact absurd hk (by simp)

theorem providerConfig_has_false (store : Config) (p : Provider) (n : String)
    (hG : ∀ k', globalNumLookup store k' n = none) :
    sectionHasNum (some (providerConfigOf p (getConfig store))) n = false := by
  rw [providerConfig_has_eq, globalNumLookup_getConfig]
  cases p <;> simp [Provider.globalKey, hG]

/-- Claim C4 (scope isolation): a number recorded only under domain `D` is
never removed by a reconciliation filtered to a different domain `E`. -/
theorem sync_scope_isolation (p : Provider) (ro : Except Unit JsVal)
    (store : Config) (D E n k : String) (r : JsVal)
    (hDE : E ≠ D)
    (hRec : domainNumLookup store D k n = some r)
    (hG : ∀ k', globalNumLookup store k' n = none)
    (hD : ∀ d' k', d' ≠ D → domainNumLookup store d' k' n = none) :
    domainNumLookup (syncProviderNumbers p (some E) ro store).store D k n = some r := by
  have hcfg : (getConfig store).domains = store.domains := rfl
  unfold syncProviderNumbers
  cases hp : syncPath p (some E) ro store with
  | noNumbers => exact hRec
  | crashed => exact hRec
  | emptyFiltered => exact hRec
  | fetchFailed =>
    rw [show (SyncResult.mk 0 (providerFetch p ro store).1 false true false).store =
        (providerFetch p ro store).1 from rfl]
    rw [domainNumLookup_congr (providerFetch_domains p ro store)]
    exact hRec
  | removalPhase acc rn =>
    obtain ⟨hb, hr⟩ := syncPath_removal_inv hp
    have hpcF := providerConfig_has_false store p n hG
    have hdE : ∀ k', domainNumLookup (getConfig store) E k' n = none := fun k' => by
      rw [domainNumLookup_congr hcfg]
      exact hD E k' hDE
    have hnot := buildLocal_filtered_not_mem hb hpcF hdE
    have hnotR : n ∉ numbersToRemoveOf acc rn := fun hmem =>
      hnot (List.mem_filter.mp hmem).1
    simp only
    by_cases hemp : (numbersToRemoveOf acc rn).isEmpty
    · rw [if_pos hemp]
      rw [domainNumLookup_congr (providerFetch_domains p ro store)]
      exact hRec
    · rw [if_neg hemp]
      by_cases hcnt : 0 < ((numbersToRemoveOf acc rn).foldl
          (removalStep p (some E) acc.phonesForDomain) (getConfig store, 0)).2
      · rw [if_pos hcnt]
        have hpres := (removalLoop_pres p (some E) acc.phonesForDomain
          (numbersToRemoveOf acc rn) (getConfig store, 0) n hnotR).2 D k
        rw [show (SyncResult.mk
            ((numbersToRemoveOf acc rn).foldl (removalStep p (some E) acc.phonesForDomain)
              (getConfig store, 0)).2
            ((numbersToRemoveOf acc rn).foldl (removalStep p (some E) acc.phonesForDomain)
              (getConfig store, 0)).1 false false true).store =
          ((numbersToRemoveOf acc rn).foldl (removalStep p (some E) acc.phonesForDomain)
            (getConfig store, 0)).1 from rfl]
        rw [hpres, domainNumLookup_congr hcfg]
        exact hRec
      · rw [if_neg hcnt]
        rw [show (SyncResult.mk ((numbersToRemoveOf acc rn).foldl
              (removalStep p (some E) acc.phonesForDomain) (getConfig store, 0)).2
            (providerFetch p ro store).1 false false false).store =
          (providerFetch p ro store).1 from rfl]
        rw [domainNumLookup_congr (providerFetch_domains p ro store)]
        exact hRec

theorem sync_scope_isolation_witness :
    ("E" : String) ≠ "D" ∧
    domainNumLookup storeW4 "D" "retell" "+1" = some recW ∧
    domainNumLookup (syncProviderNumbers .retell (some "E")
      (.ok (.arr [])) storeW4).store "D" "retell" "+1" = some recW := by
  refine ⟨by decide, rfl, ?_⟩
  apply sync_scope_isolation .retell (.ok (.arr [])) storeW4 "D" "E" "+1" "retell" recW
  · decide
  · rfl
  · intro k'
    rfl
  · intro d' k' hne
    unfold domainNumLookup storeW4
    simp only
    rw [show alookup d' [("D", ({ providerSections := [("retell",
        { phoneNumbers := some [("+1", recW)] })] } : DomainConfig)), ("E", {})] =
      (if "D" = d' then some ({ providerSections := [("retell",
        { phoneNumbers := some [("+1", recW)] })] } : DomainConfig)
       else if "E" = d' then some ({} : DomainConfig) else none) from rfl]
    rw [if_neg (fun h => hne h.symm)]
    by_cases h2 : "E" = d'
    · rw [if_pos h2]
      rfl
    · rw [if_neg h2]

/-- Claim C1: the ElevenLabs reconciliation pass is required to abort with an
error and zero changes when the remote list call fails.  The code instead
swallows the failure inside `getPhoneNumbers` (local-config fallback, then
`[]`), reports no error, and removes the locally recorded number. -/
theorem elevenlabs_sync_fallback_bug :
    elevenGetPhoneNumbers (.error ()) (elevenCtorWrite storeC1) = .arr [] ∧
    (syncProviderNumbers .labs11 none (.error ()) storeC1).fetchFailed = false ∧
    (syncProviderNumbers .labs11 none (.error ()) storeC1).removedCount = 1 ∧
    (syncProviderNumbers .labs11 none (.error ()) storeC1).saved = true ∧
    domainNumLookup (syncProviderNumbers .labs11 none (.error ()) storeC1).store
      "example.com" "elevenlabs" "+19995551111" = none :=
  ⟨rfl, rfl, rfl, rfl, rfl⟩

/-- Claim C2: with a number only in the global map and an empty remote list,
the pass is supposed to report 1 removed and persist the pruned map.  The
code deletes the number only from the in-memory object, counts 0 (the counter
is incremented only for domain-scoped deletions), and never saves: the stored
file still holds the number afterwards. -/
theorem global_only_removal_not_persisted :
    (syncProviderNumbers .vapi none (.ok (.arr [])) storeC2).removedCount = 0 ∧
    (syncProviderNumbers .vapi none (.ok (.arr [])) storeC2).saved = false ∧
    (syncProviderNumbers .vapi none (.ok (.arr [])) storeC2).store = storeC2 ∧
    globalNumLookup (syncProviderNumbers .vapi none (.ok (.arr [])) storeC2).store
      "vapi" "+12025551234" = some recW :=
  ⟨rfl, rfl, rfl, rfl⟩

/-- Claim C3, counterexample: a Retell pass whose fetch throws still leaves
the stored file changed byte-for-byte, because the service constructor's
`_updateConfig` rewrites it in normalized form before the fetch. -/
theorem transport_failure_store_changed :
    (syncProviderNumbers .retell none (.error ()) storeC3).removedCount = 0 ∧
    (syncProviderNumbers .retell none (.error ()) storeC3).store ≠ storeC3 := by
  refine ⟨rfl, fun h => ?_⟩
  have h3 : (syncProviderNumbers .retell none (.error ()) storeC3).store.providerSections.length
      = 3 := rfl
  rw [h] at h3
  have h1 : storeC3.providerSections.length = 1 := rfl
  rw [h1] at h3
  exact absurd h3 (by decide)

/-- Claim C3, amended: on a transport failure the pass applies zero removals
and never saves the pruned configuration; the VAPI store is byte-for-byte
untouched, while the Retell store is at most rewritten by the constructor's
credential save (untouched when the pass exits before the fetch). -/
theorem transport_failure_no_removal (f : Option String) (store : Config) :
    ((syncProviderNumbers .vapi f (.error ()) store).removedCount = 0 ∧
     (syncProviderNumbers .vapi f (.error ()) store).saved = false ∧
     (syncProviderNumbers .vapi f (.error ()) store).store = store) ∧
    ((syncProviderNumbers .retell f (.error ()) store).removedCount = 0 ∧
     (syncProviderNumbers .retell f (.error ()) store).saved = false ∧
     ((syncProviderNumbers .retell f (.error ()) store).store = store ∨
      (syncProviderNumbers .retell f (.error ()) store).store = retellCtorWrite store)) := by
  constructor
  · unfold syncProviderNumbers
    cases hp : syncPath .vapi f (.error ()) store with
    | noNumbers => exact ⟨rfl, rfl, rfl⟩
    | crashed => exact ⟨rfl, rfl, rfl⟩
    | emptyFiltered => exact ⟨rfl, rfl, rfl⟩
    | fetchFailed => exact ⟨rfl, rfl, rfl⟩
    | removalPhase acc rn =>
      obtain ⟨_, hr⟩ := syncPath_removal_inv hp
      exact absurd hr (by rw [show remoteNumsOf .vapi (.error ()) store = .error () from rfl]
                          simp)
  · unfold syncProviderNumbers
    cases hp : syncPath .retell f (.error ()) store with
    | noNumbers => exact ⟨rfl, rfl, Or.inl rfl⟩
    | crashed => exact ⟨rfl, rfl, Or.inl rfl⟩
    | emptyFiltered => exact ⟨rfl, rfl, Or.inl rfl⟩
    | fetchFailed => exact ⟨rfl, rfl, Or.inr rfl⟩
    | removalPhase acc rn =>
      obtain ⟨_, hr⟩ := syncPath_removal_inv hp
      exact absurd hr (by rw [show remoteNumsOf .retell (.error ()) store = .error () from rfl]
                          simp)

/-- Claim C7, counterexample: `addnumber` persists the new number under a
domain section named by the raw provider string, so `11labs` and
`elevenlabs` leave different stored configurations. -/
theorem addnumber_alias_divergence :
    addNumberCommand "11labs" "example.com" "+177" (.ok addResW) storeC1 ≠
      addNumberCommand "elevenlabs" "example.com" "+177" (.ok addResW) storeC1 := by
  intro h
  have h1 : domainNumLookup
      (addNumberCommand "11labs" "example.com" "+177" (.ok addResW) storeC1)
      "example.com" "11labs" "+177" =
      some (.obj [("id", .str "pid"), ("sipUri", .str "sip:t")]) := rfl
  rw [h] at h1
  have h2 : domainNumLookup
      (addNumberCommand "elevenlabs" "example.com" "+177" (.ok addResW) storeC1)
      "example.com" "11labs" "+177" = none := rfl
  rw [h1] at h2
  exact Option.noConfusion h2

/-- Claim C7, amended: alias resolution itself and the whole sync command
treat `11labs` and `elevenlabs` identically; only `addnumber`'s persisted
domain section differs. -/
theorem alias_equivalence_resolution_and_sync :
    getProviderConfigKey "11labs" = some "elevenlabs" ∧
    getProviderConfigKey "elevenlabs" = some "elevenlabs" ∧
    ∀ (d : Option String) (roV roR roE : Except Unit JsVal) (store : Config),
      syncCommand (some "11labs") d roV roR roE store =
        syncCommand (some "elevenlabs") d roV roR roE store := by
  refine ⟨rfl, rfl, fun d roV roR roE store => ?_⟩
  rfl

/-- Claim C9, counterexample: VAPI's verifyApiKey returns `true` on HTTP 401
(it only checks 403), contradicting the claimed behavior; Retell moreover
throws a non-authentication error on transport failure. -/
theorem verifyApiKey_claim_false :
    vapiVerifyApiKey (.httpError 401) ≠ claimedVerifyApiKey (.httpError 401) ∧
    retellVerifyApiKey .transportError ≠ claimedVerifyApiKey .transportError ∧
    elevenVerifyApiKey (.httpError 403) ≠ claimedVerifyApiKey (.httpError 403) := by
  refine ⟨?_, ?_, ?_⟩ <;> intro h <;> exact VerifyResult.noConfusion h

/-- Claim C9, amended: each implementation throws its authentication error on
exactly one outcome (HTTP 403 for VAPI and Retell, SDK status 401 for
ElevenLabs); VAPI resolves `true` on every other outcome including transport
failure, Retell resolves `true` on any other HTTP status but throws a
generic error on transport failure, and ElevenLabs throws a generic error on
every other failure outcome. -/
theorem verifyApiKey_auth_characterization (o : ApiOutcome) :
    (vapiVerifyApiKey o = .authError ↔ o = .httpError 403) ∧
    (retellVerifyApiKey o = .authError ↔ o = .httpError 403) ∧
    (elevenVerifyApiKey o = .authError ↔ o = .httpError 401) ∧
    (vapiVerifyApiKey o ≠ .genericError) ∧
    (retellVerifyApiKey o = .genericError ↔ o = .transportError) ∧
    (elevenVerifyApiKey o = .genericError ↔ o ≠ .success ∧ o ≠ .httpError 401) := by
  cases o with
  | success =>
    simp [vapiVerifyApiKey, retellVerifyApiKey, elevenVerifyApiKey]
  | transportError =>
    simp [vapiVerifyApiKey, retellVerifyApiKey, elevenVerifyApiKey]
  | httpError s =>
    by_cases h403 : s = 403 <;> by_cases h401 : s = 401 <;>
      simp_all [vapiVerifyApiKey, retellVerifyApiKey, elevenVerifyApiKey]

theorem getField_nonnull (it : JsVal) (f : String) (h : jsNonNull it) :
    it.getField f = .ok (fieldD it f) := by
  cases it with
  | null => exact absurd h (by simp [jsNonNull])
  | undefined => exact absurd h (by simp [jsNonNull])
  | obj fs =>
    show (match List.lookup f fs with
      | some v => Except.ok v
      | none => Except.ok JsVal.undefined) = Except.ok ((List.lookup f fs).getD .undefined)
    cases List.lookup f fs <;> rfl
  | str s => rfl
  | num n => rfl
  | bool b => rfl
  | arr xs => rfl

theorem jsFilterFieldEq_nonnull (f v : String) (items : List JsVal)
    (h : items.all jsNonNull) :
    jsFilterFieldEq f v items =
      .ok (items.filter (fun it => (fieldD it f).strictEqStr v)) := by
  induction items with
  | nil => rfl
  | cons it ts ih =>
    rw [List.all_cons, Bool.and_eq_true] at h
    unfold jsFilterFieldEq
    rw [getField_nonnull it f h.1, ih h.2]
    show Except.ok (if (fieldD it f).strictEqStr v = true
        then it :: List.filter (fun x => (fieldD x f).strictEqStr v) ts
        else List.filter (fun x => (fieldD x f).strictEqStr v) ts) =
      Except.ok (List.filter (fun x => (fieldD x f).strictEqStr v) (it :: ts))
    rw [List.filter_cons]

theorem jsMapField_nonnull (f : String) (items : List JsVal)
    (h : items.all jsNonNull) :
    jsMapField f items = .ok (items.map (fun it => fieldD it f)) := by
  induction items with
  | nil => rfl
  | cons it ts ih =>
    rw [List.all_cons, Bool.and_eq_true] at h
    unfold jsMapField
    rw [getField_nonnull it f h.1, ih h.2]
    rfl

theorem pickField2_nonnull (f1 f2 : String) (it : JsVal) (h : jsNonNull it) :
    pickField2 f1 f2 it = .ok (jsOr (fieldD it f1) (jsOr (fieldD it f2) (.str ""))) := by
  unfold pickField2
  rw [getField_nonnull it f1 h, getField_nonnull it f2 h]
  show (if (fieldD it f1).truthy = true then pure (fieldD it f1)
      else if (fieldD it f2).truthy = true then pure (fieldD it f2)
      else pure (JsVal.str "") : Except Unit JsVal) = _
  unfold jsOr
  by_cases h1 : (fieldD it f1).truthy
  · rw [if_pos h1, if_pos h1]
    rfl
  · rw [if_neg h1, if_neg h1]
    by_cases h2 : (fieldD it f2).truthy
    · rw [if_pos h2, if_pos h2]
      rfl
    · rw [if_neg h2, if_neg h2]
      rfl

theorem pickField3_nonnull (f1 f2 f3 : String) (it : JsVal) (h : jsNonNull it) :
    pickField3 f1 f2 f3 it =
      .ok (jsOr (fieldD it f1) (jsOr (fieldD it f2)
        (jsOr (fieldD it f3) (.str "")))) := by
  unfold pickField3
  rw [getField_nonnull it f1 h, getField_nonnull it f2 h, getField_nonnull it f3 h]
  show (if (fieldD it f1).truthy = true then pure (fieldD it f1)
      else if (fieldD it f2).truthy = true then pure (fieldD it f2)
      else if (fieldD it f3).truthy = true then pure (fieldD it f3)
      else pure (JsVal.str "") : Except Unit JsVal) = _
  unfold jsOr
  by_cases h1 : (fieldD it f1).truthy
  · rw [if_pos h1, if_pos h1]
    rfl
  · rw [if_neg h1, if_neg h1]
    by_cases h2 : (fieldD it f2).truthy
    · rw [if_pos h2, if_pos h2]
      rfl
    · rw [if_neg h2, if_neg h2]
      by_cases h3 : (fieldD it f3).truthy
      · rw [if_pos h3, if_pos h3]
        rfl
      · rw [if_neg h3, if_neg h3]
        rfl

theorem jsMapPick_ok (pick : JsVal → Except Unit JsVal) (g : JsVal → JsVal)
    (items : List JsVal) (h : ∀ it ∈ items, pick it = .ok (g it)) :
    jsMapPick pick items = .ok (items.map g) := by
  induction items with
  | nil => rfl
  | cons it ts ih =>
    unfold jsMapPick
    rw [h it (List.mem_cons_self it ts), ih (fun x hx => h x (List.mem_cons_of_mem _ hx))]
    rfl

theorem filter_nonnull_of_all (items : List JsVal) (q : JsVal → Bool)
    (h : items.all jsNonNull) : (items.filter q).all jsNonNull := by
  rw [List.all_eq_true] at h ⊢
  exact fun it hit => h it (List.mem_of_mem_filter hit)

/-- Claim C8, amended part 1: on an array whose entries are all
property-accessible (not `null`/`undefined`), the normalization never throws
and yields exactly the truthy canonical numbers extracted by the
per-provider policy. -/
theorem normalization_total_on_nonnull (p : Provider) (items : List JsVal)
    (h : items.all jsNonNull) :
    extractRemotePhoneNumbers p (.arr items) = .ok (canonicalRemoteNumbers p items) := by
  cases p with
  | vapi =>
    show Except.map (List.filter JsVal.truthy)
        (do
          let kept ← jsFilterFieldEq "provider" "byo-phone-number" items
          jsMapField "number" kept) =
      Except.ok (List.filter JsVal.truthy
        ((items.filter (fun it => (fieldD it "provider").strictEqStr "byo-phone-number")).map
          (fun it => fieldD it "number")))
    rw [jsFilterFieldEq_nonnull _ _ _ h]
    show Except.map (List.filter JsVal.truthy)
        (jsMapField "number"
          (items.filter (fun it => (fieldD it "provider").strictEqStr "byo-phone-number"))) = _
    rw [jsMapField_nonnull _ _ (filter_nonnull_of_all _ _ h)]
    rfl
  | retell =>
    show Except.map (List.filter JsVal.truthy)
        (jsMapPick (pickField2 "phone_number" "phoneNumber") items) =
      Except.ok (List.filter JsVal.truthy
        (items.map (fun it =>
          jsOr (fieldD it "phone_number") (jsOr (fieldD it "phoneNumber") (.str "")))))
    rw [jsMapPick_ok _ (fun it =>
      jsOr (fieldD it "phone_number") (jsOr (fieldD it "phoneNumber") (.str ""))) _
      (fun it hit => pickField2_nonnull _ _ it (by
        rw [List.all_eq_true] at h
        exact h it hit))]
    rfl
  | labs11 =>
    show Except.map (List.filter JsVal.truthy)
        (jsMapPick (pickField3 "phone_number" "phoneNumber" "number") items) =
      Except.ok (List.filter JsVal.truthy
        (items.map (fun it =>
          jsOr (fieldD it "phone_number") (jsOr (fieldD it "phoneNumber")
            (jsOr (fieldD it "number") (.str ""))))))
    rw [jsMapPick_ok _ (fun it =>
      jsOr (fieldD it "phone_number") (jsOr (fieldD it "phoneNumber")
        (jsOr (fieldD it "number") (.str "")))) _
      (fun it hit => pickField3_nonnull _ _ _ it (by
        rw [List.all_eq_true] at h
        exact h it hit))]
    rfl

/-- Claim C8, amended part 2: on every non-array response value the
normalization never throws and yields the empty list. -/
theorem normalization_empty_on_nonarray (p : Provider) :
    extractRemotePhoneNumbers p .null = .ok [] ∧
    extractRemotePhoneNumbers p .undefined = .ok [] ∧
    (∀ fs, extractRemotePhoneNumbers p (.obj fs) = .ok []) ∧
    (∀ s, extractRemotePhoneNumbers p (.str s) = .ok []) ∧
    (∀ n, extractRemotePhoneNumbers p (.num n) = .ok []) ∧
    (∀ b, extractRemotePhoneNumbers p (.bool b) = .ok []) :=
  ⟨rfl, rfl, fun _ => rfl, fun _ => rfl, fun _ => rfl, fun _ => rfl⟩

/-- Claim C8, counterexample: a `null` entry inside the array makes the
extraction throw a TypeError (caught by the sync command's catch as a fetch
failure), instead of being skipped. -/
theorem normalization_throws_on_null :
    extractRemotePhoneNumbers .vapi (.arr [.null]) = .error () ∧
    extractRemotePhoneNumbers .retell (.arr [.null]) = .error () ∧
    extractRemotePhoneNumbers .labs11 (.arr [.null]) = .error () :=
  ⟨rfl, rfl, rfl⟩

/-- Witness: the amended totality theorem evaluated on a concrete mixed
array. -/
theorem normalization_total_on_nonnull_witness :
    ([JsVal.obj [("provider", .str "byo-phone-number"), ("number", .str "+15550000000")],
      JsVal.num 7] : List JsVal).all jsNonNull = true ∧
    extractRemotePhoneNumbers .vapi
      (.arr [.obj [("provider", .str "byo-phone-number"), ("number", .str "+15550000000")],
        .num 7]) =
      .ok (canonicalRemoteNumbers .vapi
        [.obj [("provider", .str "byo-phone-number"), ("number", .str "+15550000000")],
         .num 7]) :=
  ⟨rfl, normalization_total_on_nonnull .vapi _ rfl⟩

/-! ## Deletion-effect lemmas (for the dual-scope and idempotence claims) -/

theorem alookup_mem {k : String} {v : α} {l : List (String × α)}
    (h : alookup k l = some v) : (k, v) ∈ l := by
  induction l with
  | nil => exact absurd h (by simp [alookup])
  | cons hd t ih =>
    obtain ⟨k0, v0⟩ := hd
    by_cases h1 : k0 = k
    · subst h1
      rw [alookup, if_pos rfl] at h
      cases h
      exact List.mem_cons_self _ _
    · rw [alookup, if_neg h1] at h
      exact List.mem_cons_of_mem _ (ih h)

theorem alookup_eq_none_of_not_mem {n : String} {l : List (String × α)}
    (h : n ∉ l.map Prod.fst) : alookup n l = none := by
  cases hl : alookup n l with
  | none => rfl
  | some v => exact absurd ((alookup_isSome_iff n l).mp (by rw [hl]; rfl)) h

theorem alookup_adel_self_nodup {n : String} {l : List (String × α)}
    (h : (l.map Prod.fst).Nodup) : alookup n (adel n l) = none := by
  induction l with
  | nil => rfl
  | cons hd t ih =>
    obtain ⟨k0, v0⟩ := hd
    rw [List.map_cons, List.nodup_cons] at h
    by_cases h1 : k0 = n
    · subst h1
      rw [adel, if_pos rfl]
      exact alookup_eq_none_of_not_mem h.1
    · rw [adel, if_neg h1, alookup, if_neg h1]
      exact ih h.2

theorem removeNumStep_deletes (n : String) (secs : List (String × ProviderSection))
    (k : String)
    (ht : sectionNumTruthy (alookup k secs) n = true)
    (hnd : mapKeysNodupAt secs k) :
    sectionNumLookup (alookup k (removeNumStep n secs k)) n = none := by
  unfold removeNumStep
  cases hks : alookup k secs with
  | none =>
    rw [hks] at ht
    exact absurd ht (by simp [sectionNumTruthy, sectionNumLookup])
  | some sec =>
    rw [hks] at ht
    have hnd2 := hnd sec
    obtain ⟨ak, au, tc, pn⟩ := sec
    cases pn with
    | none =>
      have ht2 : (false : Bool) = true := ht
      exact absurd ht2 (by simp)
    | some pns =>
      have ht2 : (match alookup n pns with
        | some v => JsVal.truthy v
        | none => false) = true := ht
      have hg : ((alookup n pns).map JsVal.truthy).getD false = true := by
        cases hv : alookup n pns with
        | none =>
          rw [hv] at ht2
          exact absurd ht2 (by simp)
        | some v =>
          rw [hv] at ht2
          exact ht2
      show sectionNumLookup (alookup k
        (if ((alookup n pns).map JsVal.truthy).getD false = true
         then aupdate k (⟨ak, au, tc, some (adel n pns)⟩ : ProviderSection) secs
         else secs)) n = none
      rw [if_pos hg, alookup_aupdate_self]
      show alookup n (adel n pns) = none
      exact alookup_adel_self_nodup (hnd2 pns hks rfl)

/-- `removeNumStep` at another key does not change the binding at `k`. -/
theorem removeNumStep_other (n : String) (secs : List (String × ProviderSection))
    (k k2 : String) (hne : k2 ≠ k) :
    alookup k (removeNumStep n secs k2) = alookup k secs := by
  unfold removeNumStep
  cases hks : alookup k2 secs with
  | none => rfl
  | some sec =>
    obtain ⟨ak, au, tc, pn⟩ := sec
    cases pn with
    | none => rfl
    | some pns =>
      show alookup k
        (if ((alookup n pns).map JsVal.truthy).getD false = true
         then aupdate k2 (⟨ak, au, tc, some (adel n pns)⟩ : ProviderSection) secs
         else secs) = alookup k secs
      by_cases hg : ((alookup n pns).map JsVal.truthy).getD false
      · rw [if_pos hg]
        exact alookup_aupdate_ne (Ne.symm hne) _ _
      · rw [if_neg hg]

theorem secEntryTruthy_eq (secs : List (String × ProviderSection)) (k n : String) :
    secEntryTruthy secs k n =
      ((alookup n ((secNumsAt secs k).getD [])).map JsVal.truthy).getD false := by
  unfold secEntryTruthy secNumsAt
  cases alookup k secs with
  | none => simp [alookup]
  | some sec =>
    obtain ⟨ak, au, tc, pn⟩ := sec
    cases pn with
    | none => simp [alookup]
    | some pns => rfl

theorem sectionNumTruthy_eq (os : Option ProviderSection) (n : String) :
    sectionNumTruthy os n =
      ((alookup n ((match os with
        | some s => s.phoneNumbers
        | none => none).getD [])).map JsVal.truthy).getD false := by
  unfold sectionNumTruthy sectionNumLookup
  cases os with
  | none => simp [alookup]
  | some s =>
    obtain ⟨ak, au, tc, pn⟩ := s
    cases pn with
    | none => simp [alookup]
    | some pns =>
      show (match alookup n pns with
        | some v => JsVal.truthy v
        | none => false) = ((alookup n pns).map JsVal.truthy).getD false
      cases alookup n pns <;> rfl

theorem secEntryTruthy_eq_sectionNumTruthy (secs : List (String × ProviderSection))
    (k n : String) :
    secEntryTruthy secs k n = sectionNumTruthy (alookup k secs) n := by
  rw [secEntryTruthy_eq, sectionNumTruthy_eq]
  rfl

theorem removeNumStep_none_inv (n : String) (secs : List (String × ProviderSection))
    (k2 k : String) (h : secNumsAt secs k = none) :
    secNumsAt (removeNumStep n secs k2) k = none := by
  by_cases hk : k2 = k
  · subst hk
    unfold removeNumStep
    cases hks : alookup k2 secs with
    | none => exact h
    | some sec =>
      have h2 : sec.phoneNumbers = none := by
        unfold secNumsAt at h
        rw [hks] at h
        exact h
      obtain ⟨ak, au, tc, pn⟩ := sec
      cases pn with
      | none => exact h
      | some pns => exact absurd h2 (by simp)
  · unfold secNumsAt
    rw [removeNumStep_other n secs k k2 hk]
    exact h

theorem removeNumFromSections_none_inv (keys : List String) (n k : String)
    (secs : List (String × ProviderSection)) (h : secNumsAt secs k = none) :
    secNumsAt (removeNumFromSections keys n secs) k = none := by
  induction keys generalizing secs with
  | nil => exact h
  | cons k2 ks ih =>
    rw [show removeNumFromSections (k2 :: ks) n secs =
      removeNumFromSections ks n (removeNumStep n secs k2) from rfl]
    exact ih _ (removeNumStep_none_inv n secs k2 k h)

theorem removalStep_count_le (p : Provider) (df : Option String)
    (pf : List (String × String)) (st : Config × Nat) (n : String) :
    st.2 ≤ (removalStep p df pf st n).2 := by
  unfold removalStep
  by_cases hskip : removalSkip df (alookup n pf)
  · rw [if_pos hskip]
  · rw [if_neg hskip]
    unfold removalApply
    cases alookup n pf with
    | none => exact le_refl _
    | some d =>
      simp only
      by_cases hde : d.isEmpty
      · rw [if_pos hde]
      · rw [if_neg hde]
        cases alookup d st.1.domains with
        | none => exact le_refl _
        | some dc =>
          simp only
          by_cases hf : (removeNumFromDomain p.configKeys n dc).2
          · rw [if_pos hf]
            exact Nat.le_succ _
          · rw [if_neg hf]

theorem removalLoop_count_le (p : Provider) (df : Option String)
    (pf : List (String × String)) (ns : List String) (st : Config × Nat) :
    st.2 ≤ (ns.foldl (removalStep p df pf) st).2 := by
  induction ns generalizing st with
  | nil => exact le_refl _
  | cons m ms ih =>
    rw [List.foldl_cons]
    exact le_trans (removalStep_count_le p df pf st m) (ih _)

theorem rdfold_binding_pres (n : String) (l : List String) (st : DomainConfig × Bool)
    (k : String) (hk : k ∉ l) :
    alookup k ((l.foldl (fun dcr k2 =>
        if secEntryTruthy dcr.1.providerSections k2 n then
          ({ dcr.1 with providerSections := removeNumStep n dcr.1.providerSections k2 },
           true)
        else dcr) st).1.providerSections) =
      alookup k st.1.providerSections := by
  induction l generalizing st with
  | nil => rfl
  | cons k2 ks ih =>
    have hk2 : k2 ≠ k := fun h => hk (h ▸ List.mem_cons_self k2 ks)
    have hks : k ∉ ks := fun h => hk (List.mem_cons_of_mem _ h)
    rw [List.foldl_cons, ih _ hks]
    by_cases hg : secEntryTruthy st.1.providerSections k2 n
    · rw [if_pos hg]
      exact removeNumStep_other n st.1.providerSections k k2 hk2
    · rw [if_neg hg]

theorem rdfold_flag_mono (n : String) (l : List String) (st : DomainConfig × Bool)
    (h : st.2 = true) :
    (l.foldl (fun dcr k2 =>
        if secEntryTruthy dcr.1.providerSections k2 n then
          ({ dcr.1 with providerSections := removeNumStep n dcr.1.providerSections k2 },
           true)
        else dcr) st).2 = true := by
  induction l generalizing st with
  | nil => exact h
  | cons k2 ks ih =>
    rw [List.foldl_cons]
    by_cases hg : secEntryTruthy st.1.providerSections k2 n
    · rw [if_pos hg]
      exact ih _ rfl
    · rw [if_neg hg]
      exact ih _ h

theorem removeNumFromDomain_deletes (n kd : String) (l1 l2 : List String)
    (dc : DomainConfig) (h1 : kd ∉ l1) (h2 : kd ∉ l2)
    (ht : sectionNumTruthy (alookup kd dc.providerSections) n = true)
    (hnd : mapKeysNodupAt dc.providerSections kd) :
    sectionNumLookup (alookup kd
      (removeNumFromDomain (l1 ++ kd :: l2) n dc).1.providerSections) n = none ∧
    (removeNumFromDomain (l1 ++ kd :: l2) n dc).2 = true := by
  unfold removeNumFromDomain
  rw [List.foldl_append, List.foldl_cons]
  have hbind := rdfold_binding_pres n l1 (dc, false) kd h1
  have hg : secEntryTruthy ((l1.foldl (fun dcr k2 =>
      if secEntryTruthy dcr.1.providerSections k2 n then
        ({ dcr.1 with providerSections := removeNumStep n dcr.1.providerSections k2 },
         true)
      else dcr) (dc, false)).1.providerSections) kd n = true := by
    rw [secEntryTruthy_eq_sectionNumTruthy, hbind]
    exact ht
  rw [if_pos hg]
  constructor
  · rw [rdfold_binding_pres n l2 _ kd h2]
    apply removeNumStep_deletes
    · rw [secEntryTruthy_eq_sectionNumTruthy] at hg
      exact hg
    · intro s pns hs hp
      rw [hbind] at hs
      exact hnd s pns hs hp
  · exact rdfold_flag_mono n l2 _ rfl

theorem removalStep_providerSections (p : Provider) (df : Option String)
    (pf : List (String × String)) (st : Config × Nat) (n : String)
    (hskip : removalSkip df (alookup n pf) = false) :
    (removalStep p df pf st n).1.providerSections =
      removeNumFromSections p.configKeys n st.1.providerSections := by
  unfold removalStep
  rw [hskip]
  simp only [Bool.false_eq_true, if_false]
  unfold removalApply
  cases alookup n pf with
  | none => rfl
  | some d =>
    simp only
    by_cases hde : d.isEmpty
    · rw [if_pos hde]
    · rw [if_neg hde]
      cases alookup d st.1.domains with
      | none => rfl
      | some dc => rfl

theorem provider_configKeys_nodup (p : Provider) : p.configKeys.Nodup := by
  cases p <;> simp [Provider.configKeys]

theorem nodup_mem_split {a : α} {l : List α} (h : a ∈ l) (hnd : l.Nodup) :
    ∃ l1 l2, l = l1 ++ a :: l2 ∧ a ∉ l1 ∧ a ∉ l2 := by
  obtain ⟨l1, l2, rfl⟩ := List.append_of_mem h
  rw [List.nodup_append] at hnd
  refine ⟨l1, l2, rfl, ?_, ?_⟩
  · intro hmem
    exact hnd.2.2 hmem (List.mem_cons_self a l2)
  · intro hmem
    exact (List.nodup_cons.mp hnd.2.1).1 hmem

theorem removalStep_deletes_at (p : Provider) (df : Option String)
    (pf : List (String × String)) (st : Config × Nat) (n d kd : String)
    (dc : DomainConfig)
    (hpf : alookup n pf = some d)
    (hskip : removalSkip df (some d) = false)
    (hde : d.isEmpty = false)
    (hdc : alookup d st.1.domains = some dc)
    (hkd : kd ∈ p.configKeys)
    (ht : sectionNumTruthy (alookup kd dc.providerSections) n = true)
    (hnd : mapKeysNodupAt dc.providerSections kd) :
    domainNumLookup (removalStep p df pf st n).1 d kd n = none ∧
    (removalStep p df pf st n).2 = st.2 + 1 := by
  obtain ⟨l1, l2, hsplit, h1, h2⟩ := nodup_mem_split hkd (provider_configKeys_nodup p)
  have hkill := removeNumFromDomain_deletes n kd l1 l2 dc h1 h2 ht hnd
  rw [← hsplit] at hkill
  unfold removalStep
  rw [hpf, hskip]
  simp only [Bool.false_eq_true, if_false]
  unfold removalApply
  simp only
  rw [if_neg (by rw [hde]; exact Bool.false_ne_true), hdc]
  simp only
  constructor
  · rw [domainNumLookup_eq]
    simp only
    rw [alookup_aupdate_self]
    exact hkill.1
  · rw [if_pos hkill.2]

theorem removalStep_global_kill (p : Provider) (df : Option String)
    (pf : List (String × String)) (st : Config × Nat) (n : String)
    (hskip : removalSkip df (alookup n pf) = false)
    (hsingle : p.configKeys = [p.globalKey])
    (ht : sectionNumTruthy (alookup p.globalKey st.1.providerSections) n = true)
    (hnd : mapKeysNodupAt st.1.providerSections p.globalKey) :
    globalNumLookup (removalStep p df pf st n).1 p.globalKey n = none := by
  rw [globalNumLookup_eq, removalStep_providerSections p df pf st n hskip, hsingle]
  rw [show removeNumFromSections [p.globalKey] n st.1.providerSections =
    removeNumStep n st.1.providerSections p.globalKey from rfl]
  exact removeNumStep_deletes n st.1.providerSections p.globalKey ht hnd

theorem removalStep_secnums_none (p : Provider) (df : Option String)
    (pf : List (String × String)) (st : Config × Nat) (m k : String)
    (h : secNumsAt st.1.providerSections k = none) :
    secNumsAt (removalStep p df pf st m).1.providerSections k = none := by
  by_cases hskip : removalSkip df (alookup m pf)
  · unfold removalStep
    rw [if_pos hskip]
    exact h
  · rw [removalStep_providerSections p df pf st m
      (by rw [Bool.not_eq_true] at hskip; exact hskip)]
    exact removeNumFromSections_none_inv _ _ _ _ h

theorem removalLoop_secnums_none (p : Provider) (df : Option String)
    (pf : List (String × String)) (ns : List String) (st : Config × Nat) (k : String)
    (h : secNumsAt st.1.providerSections k = none) :
    secNumsAt ((ns.foldl (removalStep p df pf) st).1.providerSections) k = none := by
  induction ns generalizing st with
  | nil => exact h
  | cons m ms ih =>
    rw [List.foldl_cons]
    exact ih _ (removalStep_secnums_none p df pf st m k h)

theorem adel_sublist (k : String) (l : List (String × α)) : (adel k l).Sublist l := by
  induction l with
  | nil => exact List.Sublist.refl _
  | cons hd t ih =>
    obtain ⟨k0, v0⟩ := hd
    by_cases h : k0 = k
    · rw [adel, if_pos h]
      exact List.sublist_cons_self _ _
    · rw [adel, if_neg h]
      exact List.Sublist.cons₂ _ ih

theorem adel_keys_nodup {k : String} {l : List (String × α)}
    (h : (l.map Prod.fst).Nodup) : ((adel k l).map Prod.fst).Nodup :=
  List.Nodup.sublist (List.Sublist.map _ (adel_sublist k l)) h

theorem removeNumStep_nodupAt (m k2 k : String) (secs : List (String × ProviderSection))
    (h : mapKeysNodupAt secs k) : mapKeysNodupAt (removeNumStep m secs k2) k := by
  unfold removeNumStep
  cases hks : alookup k2 secs with
  | none => exact h
  | some sec =>
    obtain ⟨ak, au, tc, pn⟩ := sec
    cases pn with
    | none => exact h
    | some pns =>
      show mapKeysNodupAt
        (if ((alookup m pns).map JsVal.truthy).getD false = true
         then aupdate k2 (⟨ak, au, tc, some (adel m pns)⟩ : ProviderSection) secs
         else secs) k
      by_cases hg : ((alookup m pns).map JsVal.truthy).getD false = true
      · rw [if_pos hg]
        intro s pns2 hs hpns2
        by_cases hkk : k2 = k
        · subst hkk
          rw [alookup_aupdate_self] at hs
          cases hs
          injection hpns2 with h2
          subst h2
          exact adel_keys_nodup (h _ pns hks rfl)
        · rw [alookup_aupdate_ne (fun he => hkk he.symm)] at hs
          exact h s pns2 hs hpns2
      · rw [if_neg hg]
        exact h

theorem removeNumFromSections_nodupAt (keys : List String) (m k : String)
    (secs : List (String × ProviderSection)) (h : mapKeysNodupAt secs k) :
    mapKeysNodupAt (removeNumFromSections keys m secs) k := by
  induction keys generalizing secs with
  | nil => exact h
  | cons k2 ks ih => exact ih _ (removeNumStep_nodupAt m k2 k secs h)

theorem rdfold_nodupAt (n k : String) (l : List String) (st : DomainConfig × Bool)
    (h : mapKeysNodupAt st.1.providerSections k) :
    mapKeysNodupAt ((l.foldl (fun dcr k2 =>
      if secEntryTruthy dcr.1.providerSections k2 n then
        ({ dcr.1 with providerSections := removeNumStep n dcr.1.providerSections k2 },
         true)
      else dcr) st).1.providerSections) k := by
  induction l generalizing st with
  | nil => exact h
  | cons k2 ks ih =>
    rw [List.foldl_cons]
    apply ih
    by_cases hc : secEntryTruthy st.1.providerSections k2 n
    · rw [if_pos hc]
      exact removeNumStep_nodupAt n k2 k _ h
    · rw [if_neg hc]
      exact h

theorem removeNumFromDomain_nodupAt (keys : List String) (n k : String)
    (dc : DomainConfig) (h : mapKeysNodupAt dc.providerSections k) :
    mapKeysNodupAt (removeNumFromDomain keys n dc).1.providerSections k :=
  rdfold_nodupAt n k keys (dc, false) h

theorem removalStep_domMapNodup (p : Provider) (df : Option String)
    (pf : List (String × String)) (st : Config × Nat) (m d k : String)
    (h : domMapNodup st.1 d k) : domMapNodup (removalStep p df pf st m).1 d k := by
  unfold removalStep
  by_cases hskip : removalSkip df (alookup m pf)
  · rw [if_pos hskip]
    exact h
  · rw [if_neg hskip]
    unfold removalApply
    cases alookup m pf with
    | none => exact h
    | some d2 =>
      simp only
      by_cases hde : d2.isEmpty
      · rw [if_pos hde]
        exact h
      · rw [if_neg hde]
        cases hdc : alookup d2 st.1.domains with
        | none =>
          simp only [hdc]
          exact h
        | some dc0 =>
          simp only [hdc]
          intro dc hdc2
          have hdc2' : alookup d
              (aupdate d2 (removeNumFromDomain p.configKeys m dc0).1 st.1.domains) =
              some dc := hdc2
          by_cases hdd : d2 = d
          · subst hdd
            rw [alookup_aupdate_self] at hdc2'
            cases hdc2'
            exact removeNumFromDomain_nodupAt _ _ _ _ (h dc0 hdc)
          · rw [alookup_aupdate_ne (fun he => hdd he.symm)] at hdc2'
            exact h dc hdc2'

theorem removalLoop_domMapNodup (p : Provider) (df : Option String)
    (pf : List (String × String)) (ns : List String) (st : Config × Nat) (d k : String)
    (h : domMapNodup st.1 d k) :
    domMapNodup ((ns.foldl (removalStep p df pf) st).1) d k := by
  induction ns generalizing st with
  | nil => exact h
  | cons m ms ih =>
    rw [List.foldl_cons]
    exact ih _ (removalStep_domMapNodup p df pf st m d k h)

theorem removalStep_secsNodupAt (p : Provider) (df : Option String)
    (pf : List (String × String)) (st : Config × Nat) (m k : String)
    (h : mapKeysNodupAt st.1.providerSections k) :
    mapKeysNodupAt (removalStep p df pf st m).1.providerSections k := by
  by_cases hskip : removalSkip df (alookup m pf)
  · unfold removalStep
    rw [if_pos hskip]
    exact h
  · rw [removalStep_providerSections p df pf st m
      (by rw [Bool.not_eq_true] at hskip; exact hskip)]
    exact removeNumFromSections_nodupAt _ _ _ _ h

theorem removalLoop_secsNodupAt (p : Provider) (df : Option String)
    (pf : List (String × String)) (ns : List String) (st : Config × Nat) (k : String)
    (h : mapKeysNodupAt st.1.providerSections k) :
    mapKeysNodupAt ((ns.foldl (removalStep p df pf) st).1.providerSections) k := by
  induction ns generalizing st with
  | nil => exact h
  | cons m ms ih =>
    rw [List.foldl_cons]
    exact ih _ (removalStep_secsNodupAt p df pf st m k h)

theorem pffold_stays (p : Provider) (n d : String) (ds : List (String × DomainConfig))
    (honly : ∀ e ∈ ds, e.1 ≠ d → domainHasNum p e.2 n = false) :
    ds.foldl (fun o e => if domainHasNum p e.2 n then pfVal e.1 o else o)
      (some d) = some d := by
  induction ds with
  | nil => rfl
  | cons e es ih =>
    rw [List.foldl_cons]
    have hstep : (if domainHasNum p e.2 n then pfVal e.1 (some d) else some d)
        = some d := by
      by_cases hd : e.1 = d
      · by_cases hc : domainHasNum p e.2 n
        · rw [if_pos hc, hd]
          show (if d = "global" then some d else some d) = some d
          rw [ite_self]
        · rw [if_neg hc]
      · rw [honly e (List.mem_cons_self e es) hd]
        simp
    rw [hstep]
    exact ih (fun e2 he2 => honly e2 (List.mem_cons_of_mem _ he2))

theorem pffold_reaches (p : Provider) (n d : String) (ds : List (String × DomainConfig))
    (o0 : Option String)
    (honly : ∀ e ∈ ds, e.1 ≠ d → domainHasNum p e.2 n = false)
    (hw : ∃ dc, (d, dc) ∈ ds ∧ domainHasNum p dc n = true)
    (ho0 : o0 = none ∨ o0 = some "global") :
    ds.foldl (fun o e => if domainHasNum p e.2 n then pfVal e.1 o else o) o0
      = some d := by
  induction ds generalizing o0 with
  | nil =>
    obtain ⟨dc, hmem, _⟩ := hw
    exact absurd hmem (List.not_mem_nil _)
  | cons e es ih =>
    obtain ⟨e1, e2⟩ := e
    rw [List.foldl_cons]
    obtain ⟨dc, hmem, hdc⟩ := hw
    have hrest : ∀ e3 ∈ es, e3.1 ≠ d → domainHasNum p e3.2 n = false :=
      fun e3 he3 => honly e3 (List.mem_cons_of_mem _ he3)
    have hval : ∀ o, o = none ∨ o = some "global" → pfVal d o = some d := by
      rintro o (rfl | rfl)
      · rfl
      · show (if "global" = "global" then some d else some "global") = some d
        rw [if_pos rfl]
    show List.foldl (fun o e => if domainHasNum p e.2 n = true then pfVal e.1 o else o)
      (if domainHasNum p e2 n = true then pfVal e1 o0 else o0) es = some d
    rcases List.mem_cons.mp hmem with heq | hmem2
    · injection heq with h1 h2
      subst h1
      subst h2
      rw [hdc, if_pos rfl, hval o0 ho0]
      exact pffold_stays p n d es hrest
    · by_cases h1 : e1 = d
      · by_cases hc : domainHasNum p e2 n
        · rw [hc, if_pos rfl, h1, hval o0 ho0]
          exact pffold_stays p n d es hrest
        · rw [Bool.not_eq_true] at hc
          rw [hc, if_neg Bool.false_ne_true]
          exact ih o0 hrest ⟨dc, hmem2, hdc⟩ ho0
      · have hne : domainHasNum p e2 n = false :=
          honly (e1, e2) (List.mem_cons_self _ _) h1
        rw [hne, if_neg Bool.false_ne_true]
        exact ih o0 hrest ⟨dc, hmem2, hdc⟩ ho0

theorem setAdd_nodup {l : List String} (h : l.Nodup) (n : String) :
    (setAdd n l).Nodup := by
  unfold setAdd
  by_cases hc : l.contains n
  · rw [if_pos hc]
    exact h
  · rw [if_neg hc]
    rw [List.nodup_append]
    refine ⟨h, List.nodup_singleton n, ?_⟩
    intro a ha hb
    rw [List.mem_singleton] at hb
    subst hb
    exact hc (List.elem_iff.mpr ha)

theorem foldl_setAdd_nodup (pns : PNMap) {s : List String} (h : s.Nodup) :
    (pns.foldl (fun s nv => setAdd nv.1 s) s).Nodup := by
  induction pns generalizing s with
  | nil => exact h
  | cons hd t ih => exact ih (setAdd_nodup h hd.1)

theorem addNums_nodup (u : String → List (String × String) → List (String × String))
    (pns : PNMap) (acc : LocalAcc) (h : acc.numSet.Nodup) :
    (addNums u pns acc).numSet.Nodup := by
  rw [addNums_numSet]
  exact foldl_setAdd_nodup pns h

theorem addGlobalNums_nodup (pc : ProviderSection) (acc : LocalAcc)
    (h : acc.numSet.Nodup) : (addGlobalNums pc acc).numSet.Nodup := by
  unfold addGlobalNums
  cases pc.phoneNumbers with
  | none => exact h
  | some pns => exact addNums_nodup _ pns acc h

theorem addKeyedNums_nodup (u : String → List (String × String) → List (String × String))
    (keys : List String) (dc : DomainConfig) (acc : LocalAcc) (h : acc.numSet.Nodup) :
    (addKeyedNums u keys dc acc).numSet.Nodup := by
  induction keys generalizing acc with
  | nil => exact h
  | cons k ks ih =>
    have step : addKeyedNums u (k :: ks) dc acc =
        addKeyedNums u ks dc
          (match alookup k dc.providerSections with
           | some s =>
             match s.phoneNumbers with
             | some pns => addNums u pns acc
             | none => acc
           | none => acc) := rfl
    rw [step]
    apply ih
    cases alookup k dc.providerSections with
    | none => exact h
    | some s =>
      obtain ⟨ak, au, tc, pn⟩ := s
      cases pn with
      | none => exact h
      | some pns => exact addNums_nodup u pns acc h

theorem domainsFold_nodup (p : Provider) (ds : List (String × DomainConfig))
    (acc : LocalAcc) (h : acc.numSet.Nodup) :
    ((ds.foldl (fun a e => addDomainNumsAll p e.1 e.2 a) acc)).numSet.Nodup := by
  induction ds generalizing acc with
  | nil => exact h
  | cons e es ih =>
    rw [List.foldl_cons]
    exact ih _ (addKeyedNums_nodup _ _ _ _ h)

theorem sectionNumTruthy_isSome {os : Option ProviderSection} {n : String}
    (h : sectionNumTruthy os n = true) : (sectionNumLookup os n).isSome = true := by
  unfold sectionNumTruthy at h
  cases hl : sectionNumLookup os n with
  | none =>
    rw [hl] at h
    exact absurd h (by simp)
  | some v => rfl

theorem sectionHasNumbers_of_truthy (os : Option ProviderSection) (n : String)
    (h : sectionNumTruthy os n = true) : sectionHasNumbers os = true := by
  have hs := sectionNumTruthy_isSome h
  cases os with
  | none => exact absurd hs (by simp [sectionNumLookup])
  | some s =>
    obtain ⟨ak, au, tc, pn⟩ := s
    cases pn with
    | none => exact absurd hs (by simp [sectionNumLookup])
    | some pns =>
      have hs2 : (alookup n pns).isSome := hs
      rw [Option.isSome_iff_exists] at hs2
      obtain ⟨v, hv⟩ := hs2
      have hmem := alookup_mem hv
      show decide (0 < pns.length) = true
      rw [decide_eq_true_iff]
      exact List.length_pos.mpr (List.ne_nil_of_mem hmem)

theorem domainHasNum_of_truthy (p : Provider) (dc : DomainConfig) (kd n : String)
    (hkd : kd ∈ p.configKeys)
    (ht : sectionNumTruthy (alookup kd dc.providerSections) n = true) :
    domainHasNum p dc n = true := by
  unfold domainHasNum keysHaveNum
  rw [List.any_eq_true]
  refine ⟨kd, hkd, ?_⟩
  rw [sectionHasNum_eq_isSome]
  exact sectionNumTruthy_isSome ht

theorem domainHasNumbers_of_truthy (p : Provider) (dc : DomainConfig) (kd n : String)
    (hkd : kd ∈ p.configKeys)
    (ht : sectionNumTruthy (alookup kd dc.providerSections) n = true) :
    domainHasNumbers p dc = true := by
  unfold domainHasNumbers
  rw [List.any_eq_true]
  exact ⟨kd, hkd, sectionHasNumbers_of_truthy _ n ht⟩

theorem hasPhoneNumbers_of_domain (p : Provider) (cfg : Config) (pc : ProviderSection)
    (d : String) (dc : DomainConfig) (hdc : alookup d cfg.domains = some dc)
    (hd : domainHasNumbers p dc = true) :
    hasPhoneNumbers p cfg pc none = true := by
  unfold hasPhoneNumbers
  rw [Bool.or_eq_true]
  right
  show cfg.domains.any (fun e => domainHasNumbers p e.2) = true
  rw [List.any_eq_true]
  exact ⟨(d, dc), alookup_mem hdc, hd⟩

theorem syncPath_removal_eq (p : Provider) (df : Option String)
    (ro : Except Unit JsVal) (file : Config) (acc : LocalAcc) (rns : List JsVal)
    (h1 : hasPhoneNumbers p (getConfig file) (providerConfigOf p (getConfig file)) df
      = true)
    (h2 : buildLocal p (getConfig file) (providerConfigOf p (getConfig file)) df
      = .ok acc)
    (h3 : (df.isSome && acc.numSet.isEmpty) = false)
    (h4 : remoteNumsOf p ro file = .ok rns) :
    syncPath p df ro file = .removalPhase acc rns := by
  unfold syncPath
  simp [h1, h2, h3, h4]

theorem sectionNumLookup_of_secNumsAt_none (secs : List (String × ProviderSection))
    (k n : String) (h : secNumsAt secs k = none) :
    sectionNumLookup (alookup k secs) n = none := by
  unfold secNumsAt at h
  cases hks : alookup k secs with
  | none => rfl
  | some s =>
    rw [hks] at h
    have h2 : s.phoneNumbers = none := h
    show (match s.phoneNumbers with
      | some pns => alookup n pns
      | none => none) = none
    rw [h2]

theorem addGlobalNums_pf_cases (pc : ProviderSection) (n : String) :
    alookup n (addGlobalNums pc (⟨[], []⟩ : LocalAcc)).phonesForDomain = none ∨
    alookup n (addGlobalNums pc (⟨[], []⟩ : LocalAcc)).phonesForDomain
      = some "global" := by
  unfold addGlobalNums
  cases pc.phoneNumbers with
  | none =>
    left
    rfl
  | some pns =>
    rw [addNums_pf, foldl_aupdate_const]
    by_cases h : (alookup n pns).isSome
    · right
      rw [if_pos h]
    · left
      rw [if_neg h]
      rfl

theorem getConfig_lookup_vapi (store : Config) :
    alookup "vapi" (getConfig store).providerSections
      = some (mergeSection (alookup "vapi" store.providerSections)) := rfl

theorem getConfig_lookup_retell (store : Config) :
    alookup "retell" (getConfig store).providerSections
      = some (mergeSection (alookup "retell" store.providerSections)) := by
  show (if "vapi" = "retell" then some (mergeSection (alookup "vapi" store.providerSections))
    else alookup "retell" [("retell", mergeSection (alookup "retell" store.providerSections)),
      ("elevenlabs", elevenLoadSection (alookup "elevenlabs" store.providerSections))]) = _
  rw [if_neg (by decide)]
  show (if "retell" = "retell" then some (mergeSection (alookup "retell" store.providerSections))
    else alookup "retell" [("elevenlabs", elevenLoadSection (alookup "elevenlabs" store.providerSections))]) = _
  rw [if_pos rfl]

theorem mergeSection_phoneNumbers (fs : Option ProviderSection) :
    (mergeSection fs).phoneNumbers = fs.bind (·.phoneNumbers) := by
  cases fs with
  | none => rfl
  | some s => rfl

theorem optSection_pn_eq (fs : Option ProviderSection) :
    (match fs with
     | some s => s.phoneNumbers
     | none => none) = fs.bind (·.phoneNumbers) := by
  cases fs <;> rfl

theorem mapKeysNodupAt_getConfig_of (store : Config) (k : String)
    (hlk : alookup k (getConfig store).providerSections
      = some (mergeSection (alookup k store.providerSections)))
    (h : mapKeysNodupAt store.providerSections k) :
    mapKeysNodupAt (getConfig store).providerSections k := by
  intro sec pns hsec hpns
  rw [hlk] at hsec
  injection hsec with hsec
  subst hsec
  rw [mergeSection_phoneNumbers] at hpns
  cases hfs : alookup k store.providerSections with
  | none =>
    rw [hfs] at hpns
    exact absurd hpns (by simp)
  | some s =>
    rw [hfs] at hpns
    have hpns2 : s.phoneNumbers = some pns := hpns
    exact h s pns hfs hpns2

theorem sectionNumTruthy_congr {os os' : Option ProviderSection} {n : String}
    (h : sectionNumLookup os n = sectionNumLookup os' n) :
    sectionNumTruthy os n = sectionNumTruthy os' n := by
  unfold sectionNumTruthy
  rw [h]

theorem sectionNumTruthy_getConfig_of (store : Config) (k n : String)
    (hlk : alookup k (getConfig store).providerSections
      = some (mergeSection (alookup k store.providerSections))) :
    sectionNumTruthy (alookup k (getConfig store).providerSections) n
      = sectionNumTruthy (alookup k store.providerSections) n := by
  rw [hlk, sectionNumTruthy_eq, sectionNumTruthy_eq]
  rw [show (match some (mergeSection (alookup k store.providerSections)) with
       | some s => s.phoneNumbers
       | none => none)
      = (mergeSection (alookup k store.providerSections)).phoneNumbers from rfl]
  rw [mergeSection_phoneNumbers, optSection_pn_eq]

theorem syncProviderNumbers_removal (p : Provider) (df : Option String)
    (ro : Except Unit JsVal) (file : Config) (acc : LocalAcc) (rns : List JsVal)
    (hpath : syncPath p df ro file = .removalPhase acc rns)
    (hne : (numbersToRemoveOf acc rns).isEmpty = false)
    (hpos : 0 < ((numbersToRemoveOf acc rns).foldl
      (removalStep p df acc.phonesForDomain) (getConfig file, 0)).2) :
    syncProviderNumbers p df ro file =
      ⟨((numbersToRemoveOf acc rns).foldl
          (removalStep p df acc.phonesForDomain) (getConfig file, 0)).2,
        ((numbersToRemoveOf acc rns).foldl
          (removalStep p df acc.phonesForDomain) (getConfig file, 0)).1,
        false, false, true⟩ := by
  unfold syncProviderNumbers
  rw [hpath]
  simp only [hne, Bool.false_eq_true, if_false, if_pos hpos]

/-- C5: for a number stored both in the provider's global map and in one
domain's per-domain map (and nowhere else among the domains), absent
remotely, a single unfiltered pass deletes both records and persists. -/
theorem dual_scope_removal (p : Provider) (ro : Except Unit JsVal) (store : Config)
    (n d kd : String) (dc : DomainConfig) (rns : List JsVal)
    (hkd : kd ∈ p.configKeys)
    (hde : d.isEmpty = false)
    (hdc : alookup d store.domains = some dc)
    (htd : sectionNumTruthy (alookup kd dc.providerSections) n = true)
    (hndd : mapKeysNodupAt dc.providerSections kd)
    (htg : sectionNumTruthy (alookup p.globalKey store.providerSections) n = true)
    (hndg : mapKeysNodupAt store.providerSections p.globalKey)
    (honly : ∀ e ∈ store.domains, e.1 ≠ d → domainHasNum p e.2 n = false)
    (hro : remoteNumsOf p ro store = .ok rns)
    (habsent : rns.any (fun v => v.strictEqStr n) = false) :
    (syncProviderNumbers p none ro store).saved = true ∧
    1 ≤ (syncProviderNumbers p none ro store).removedCount ∧
    globalNumLookup (syncProviderNumbers p none ro store).store p.globalKey n = none ∧
    domainNumLookup (syncProviderNumbers p none ro store).store d kd n = none := by
  have hbuild : buildLocal p (getConfig store) (providerConfigOf p (getConfig store)) none
      = .ok ((getConfig store).domains.foldl (fun a e => addDomainNumsAll p e.1 e.2 a)
          (addGlobalNums (providerConfigOf p (getConfig store)) ⟨[], []⟩)) := rfl
  set acc : LocalAcc :=
    (getConfig store).domains.foldl (fun a e => addDomainNumsAll p e.1 e.2 a)
      (addGlobalNums (providerConfigOf p (getConfig store)) ⟨[], []⟩) with hacc
  have hdcc : alookup d (getConfig store).domains = some dc := hdc
  have hhn : hasPhoneNumbers p (getConfig store)
      (providerConfigOf p (getConfig store)) none = true :=
    hasPhoneNumbers_of_domain p _ _ d dc hdcc
      (domainHasNumbers_of_truthy p dc kd n hkd htd)
  have hpath : syncPath p none ro store = .removalPhase acc rns :=
    syncPath_removal_eq p none ro store acc rns hhn hbuild rfl hro
  have hdhn : domainHasNum p dc n = true := domainHasNum_of_truthy p dc kd n hkd htd
  have hmemN : n ∈ acc.numSet := by
    rw [hacc, domainsFold_numSet_mem]
    right
    rw [List.any_eq_true]
    exact ⟨(d, dc), alookup_mem hdcc, hdhn⟩
  have honly2 : ∀ e ∈ (getConfig store).domains, e.1 ≠ d →
      domainHasNum p e.2 n = false := honly
  have hpf : alookup n acc.phonesForDomain = some d := by
    rw [hacc]
    rw [domainsFold_pf]
    exact pffold_reaches p n d (getConfig store).domains _ honly2
      ⟨dc, alookup_mem hdcc, hdhn⟩ (addGlobalNums_pf_cases _ n)
  have hnodup : acc.numSet.Nodup := by
    rw [hacc]
    exact domainsFold_nodup p _ _ (addGlobalNums_nodup _ _ List.nodup_nil)
  have hmemT : n ∈ numbersToRemoveOf acc rns := by
    rw [numbersToRemoveOf, List.mem_filter]
    refine ⟨hmemN, ?_⟩
    rw [habsent]
    rfl
  have hTnodup : (numbersToRemoveOf acc rns).Nodup := List.Nodup.filter _ hnodup
  obtain ⟨l1, l2, hsplit, hn1, hn2⟩ := nodup_mem_split hmemT hTnodup
  have hTne : (numbersToRemoveOf acc rns).isEmpty = false := by
    rw [hsplit]
    cases l1 <;> rfl
  have hresplit : (numbersToRemoveOf acc rns).foldl
        (removalStep p none acc.phonesForDomain) (getConfig store, 0)
      = l2.foldl (removalStep p none acc.phonesForDomain)
          (removalStep p none acc.phonesForDomain
            (l1.foldl (removalStep p none acc.phonesForDomain) (getConfig store, 0)) n) := by
    rw [hsplit, List.foldl_append, List.foldl_cons]
  set st1 : Config × Nat :=
    l1.foldl (removalStep p none acc.phonesForDomain) (getConfig store, 0) with hst1
  have hpres1 := removalLoop_pres p none acc.phonesForDomain l1
    (getConfig store, 0) n hn1
  have hd0 : domainNumLookup (getConfig store) d kd n
      = sectionNumLookup (alookup kd dc.providerSections) n := by
    rw [domainNumLookup_eq, hdcc]
  have hsl : (sectionNumLookup (alookup kd dc.providerSections) n).isSome = true :=
    sectionNumTruthy_isSome htd
  have hdl1 : domainNumLookup st1.1 d kd n
      = sectionNumLookup (alookup kd dc.providerSections) n := by
    rw [hst1]
    exact (hpres1.2 d kd).trans hd0
  have hdc1ex : ∃ dc1, alookup d st1.1.domains = some dc1 ∧
      sectionNumLookup (alookup kd dc1.providerSections) n
        = sectionNumLookup (alookup kd dc.providerSections) n := by
    rw [domainNumLookup_eq] at hdl1
    cases hdd : alookup d st1.1.domains with
    | none =>
      rw [hdd] at hdl1
      have h0 : (none : Option JsVal)
          = sectionNumLookup (alookup kd dc.providerSections) n := hdl1
      rw [← h0] at hsl
      exact absurd hsl (by simp)
    | some dc1 =>
      rw [hdd] at hdl1
      exact ⟨dc1, rfl, hdl1⟩
  obtain ⟨dc1, hdc1, hslc⟩ := hdc1ex
  have htd1 : sectionNumTruthy (alookup kd dc1.providerSections) n = true := by
    rw [sectionNumTruthy_congr hslc]
    exact htd
  have hinv0 : domMapNodup (getConfig store, (0 : Nat)).1 d kd := by
    intro dcx hdcx
    have h2 : alookup d store.domains = some dcx := hdcx
    rw [hdc] at h2
    injection h2 with h2
    subst h2
    exact hndd
  have hnd1 : mapKeysNodupAt dc1.providerSections kd := by
    refine removalLoop_domMapNodup p none acc.phonesForDomain l1
      (getConfig store, 0) d kd hinv0 dc1 ?_
    rw [← hst1]
    exact hdc1
  have hstep := removalStep_deletes_at p none acc.phonesForDomain st1 n d kd dc1
    hpf rfl hde hdc1 hkd htd1 hnd1
  have hpres2 := removalLoop_pres p none acc.phonesForDomain l2
    (removalStep p none acc.phonesForDomain st1 n) n hn2
  have hcount : 1 ≤ ((numbersToRemoveOf acc rns).foldl
      (removalStep p none acc.phonesForDomain) (getConfig store, 0)).2 := by
    rw [hresplit]
    refine le_trans ?_ (removalLoop_count_le p none acc.phonesForDomain l2 _)
    rw [hstep.2]
    exact Nat.succ_le_succ (Nat.zero_le _)
  have hdomfin : domainNumLookup ((numbersToRemoveOf acc rns).foldl
      (removalStep p none acc.phonesForDomain) (getConfig store, 0)).1 d kd n = none := by
    rw [hresplit]
    exact (hpres2.2 d kd).trans hstep.1
  have hglobfin : globalNumLookup ((numbersToRemoveOf acc rns).foldl
      (removalStep p none acc.phonesForDomain) (getConfig store, 0)).1
      p.globalKey n = none := by
    have hsingle : p.configKeys = [p.globalKey] ∨ p = .labs11 := by
      cases p
      · left; rfl
      · left; rfl
      · right; rfl
    rcases hsingle with hsk | hp
    · have hlk : alookup p.globalKey (getConfig store).providerSections
          = some (mergeSection (alookup p.globalKey store.providerSections)) := by
        cases p
        · exact getConfig_lookup_vapi store
        · exact getConfig_lookup_retell store
        · exact absurd hsk (by decide)
      have htg0 : sectionNumTruthy
          (alookup p.globalKey (getConfig store).providerSections) n = true := by
        rw [sectionNumTruthy_getConfig_of store p.globalKey n hlk]
        exact htg
      have hnd0 : mapKeysNodupAt (getConfig store).providerSections p.globalKey :=
        mapKeysNodupAt_getConfig_of store p.globalKey hlk hndg
      have htg1 : sectionNumTruthy (alookup p.globalKey st1.1.providerSections) n
          = true := by
        have he : sectionNumLookup (alookup p.globalKey st1.1.providerSections) n
            = sectionNumLookup (alookup p.globalKey
                (getConfig store).providerSections) n := by
          rw [← globalNumLookup_eq, ← globalNumLookup_eq, hst1]
          exact hpres1.1 p.globalKey
        rw [sectionNumTruthy_congr he]
        exact htg0
      have hnds1 : mapKeysNodupAt st1.1.providerSections p.globalKey := by
        rw [hst1]
        exact removalLoop_secsNodupAt p none acc.phonesForDomain l1
          (getConfig store, 0) p.globalKey hnd0
      have hkill : globalNumLookup
          (removalStep p none acc.phonesForDomain st1 n).1 p.globalKey n = none :=
        removalStep_global_kill p none acc.phonesForDomain st1 n
          (by rw [hpf]; rfl) hsk htg1 hnds1
      rw [hresplit]
      exact (hpres2.1 p.globalKey).trans hkill
    · subst hp
      have h0 : secNumsAt (getConfig store, (0 : Nat)).1.providerSections
          "elevenlabs" = none := rfl
      have h1 := removalLoop_secnums_none Provider.labs11 none acc.phonesForDomain
        (numbersToRemoveOf acc rns) (getConfig store, 0) "elevenlabs" h0
      rw [globalNumLookup_eq]
      exact sectionNumLookup_of_secNumsAt_none _ _ n h1
  have hsync := syncProviderNumbers_removal p none ro store acc rns hpath hTne
    (lt_of_lt_of_le Nat.zero_lt_one hcount)
  rw [hsync]
  exact ⟨rfl, hcount, hglobfin, hdomfin⟩

theorem dual_scope_removal_witness :
    (syncProviderNumbers .vapi none (.ok (.arr [])) storeC5).saved = true ∧
    1 ≤ (syncProviderNumbers .vapi none (.ok (.arr [])) storeC5).removedCount ∧
    globalNumLookup (syncProviderNumbers .vapi none (.ok (.arr [])) storeC5).store
      Provider.vapi.globalKey "+15550001111" = none ∧
    domainNumLookup (syncProviderNumbers .vapi none (.ok (.arr [])) storeC5).store
      "example.com" "vapi" "+15550001111" = none := by
  apply dual_scope_removal .vapi (.ok (.arr [])) storeC5 "+15550001111" "example.com"
    "vapi" dcC5 []
  · decide
  · rfl
  · rfl
  · rfl
  · intro s pns h1 h2
    have h1' : secC5 = s := Option.some.inj h1
    subst h1'
    have h2' : pnsC5 = pns := Option.some.inj h2
    subst h2'
    decide
  · rfl
  · intro s pns h1 h2
    have h1' : secC5g = s := Option.some.inj h1
    subst h1'
    have h2' : pnsC5 = pns := Option.some.inj h2
    subst h2'
    decide
  · intro e he hne
    have he2 : e = ("example.com", dcC5) := by
      rcases List.mem_singleton.mp he with h
      exact h
    rw [he2] at hne
    exact absurd rfl hne
  · rfl
  · rfl

theorem pnPruned_refl (o : Option PNMap) : pnPruned o o := by
  cases o with
  | none => trivial
  | some x => exact List.Sublist.refl x

theorem secPruned_refl (s : ProviderSection) : secPruned s s :=
  ⟨rfl, rfl, rfl, pnPruned_refl _⟩

theorem secsPruned_refl (l : List (String × ProviderSection)) : secsPruned l l := by
  induction l with
  | nil => exact List.Forall₂.nil
  | cons hd t ih => exact List.Forall₂.cons ⟨rfl, secPruned_refl _⟩ ih

theorem dcPruned_refl (dc : DomainConfig) : dcPruned dc dc :=
  ⟨rfl, rfl, rfl, rfl, secsPruned_refl _⟩

theorem domsPruned_refl (l : List (String × DomainConfig)) :
    List.Forall₂ (fun e e' => e.1 = e'.1 ∧ dcPruned e.2 e'.2) l l := by
  induction l with
  | nil => exact List.Forall₂.nil
  | cons hd t ih => exact List.Forall₂.cons ⟨rfl, dcPruned_refl _⟩ ih

theorem configPruned_refl (c : Config) : configPruned c c :=
  ⟨domsPruned_refl _, secsPruned_refl _⟩

theorem pnPruned_trans {a b c : Option PNMap} (h1 : pnPruned a b) (h2 : pnPruned b c) :
    pnPruned a c := by
  cases a with
  | none =>
    cases b with
    | none => exact h2
    | some y => exact absurd h1 (by simp [pnPruned])
  | some x =>
    cases b with
    | none => exact absurd h1 (by simp [pnPruned])
    | some y =>
      cases c with
      | none => exact absurd h2 (by simp [pnPruned])
      | some z => exact List.Sublist.trans h1 h2

theorem secPruned_trans {a b c : ProviderSection} (h1 : secPruned a b)
    (h2 : secPruned b c) : secPruned a c :=
  ⟨h1.1.trans h2.1, h1.2.1.trans h2.2.1, h1.2.2.1.trans h2.2.2.1,
    pnPruned_trans h1.2.2.2 h2.2.2.2⟩

theorem secsPruned_trans {a b c : List (String × ProviderSection)}
    (h1 : secsPruned a b) (h2 : secsPruned b c) : secsPruned a c := by
  induction h1 generalizing c with
  | nil =>
    cases h2
    exact List.Forall₂.nil
  | cons hab t ih =>
    cases h2 with
    | cons hbc t2 =>
      exact List.Forall₂.cons ⟨hab.1.trans hbc.1, secPruned_trans hab.2 hbc.2⟩ (ih t2)

theorem dcPruned_trans {a b c : DomainConfig} (h1 : dcPruned a b) (h2 : dcPruned b c) :
    dcPruned a c :=
  ⟨h1.1.trans h2.1, h1.2.1.trans h2.2.1, h1.2.2.1.trans h2.2.2.1,
    h1.2.2.2.1.trans h2.2.2.2.1, secsPruned_trans h1.2.2.2.2 h2.2.2.2.2⟩

theorem domsPruned_trans {a b c : List (String × DomainConfig)}
    (h1 : List.Forall₂ (fun e e' => e.1 = e'.1 ∧ dcPruned e.2 e'.2) a b)
    (h2 : List.Forall₂ (fun e e' => e.1 = e'.1 ∧ dcPruned e.2 e'.2) b c) :
    List.Forall₂ (fun e e' => e.1 = e'.1 ∧ dcPruned e.2 e'.2) a c := by
  induction h1 generalizing c with
  | nil =>
    cases h2
    exact List.Forall₂.nil
  | cons hab t ih =>
    cases h2 with
    | cons hbc t2 =>
      exact List.Forall₂.cons ⟨hab.1.trans hbc.1, dcPruned_trans hab.2 hbc.2⟩ (ih t2)

theorem configPruned_trans {a b c : Config} (h1 : configPruned a b)
    (h2 : configPruned b c) : configPruned a c :=
  ⟨domsPruned_trans h1.1 h2.1, secsPruned_trans h1.2 h2.2⟩

theorem secsPruned_aupdate (k : String) (v v' : ProviderSection)
    (l : List (String × ProviderSection)) (hv : alookup k l = some v)
    (hp : secPruned v' v) : secsPruned (aupdate k v' l) l := by
  induction l with
  | nil => exact absurd hv (by simp [alookup])
  | cons hd t ih =>
    obtain ⟨k0, v0⟩ := hd
    by_cases h : k0 = k
    · subst h
      rw [alookup, if_pos rfl] at hv
      injection hv with hv
      subst hv
      rw [aupdate, if_pos rfl]
      exact List.Forall₂.cons ⟨rfl, hp⟩ (secsPruned_refl t)
    · rw [alookup, if_neg h] at hv
      rw [aupdate, if_neg h]
      exact List.Forall₂.cons ⟨rfl, secPruned_refl _⟩ (ih hv)

theorem domsPruned_aupdate (k : String) (v v' : DomainConfig)
    (l : List (String × DomainConfig)) (hv : alookup k l = some v)
    (hp : dcPruned v' v) :
    List.Forall₂ (fun e e' => e.1 = e'.1 ∧ dcPruned e.2 e'.2) (aupdate k v' l) l := by
  induction l with
  | nil => exact absurd hv (by simp [alookup])
  | cons hd t ih =>
    obtain ⟨k0, v0⟩ := hd
    by_cases h : k0 = k
    · subst h
      rw [alookup, if_pos rfl] at hv
      injection hv with hv
      subst hv
      rw [aupdate, if_pos rfl]
      exact List.Forall₂.cons ⟨rfl, hp⟩ (domsPruned_refl t)
    · rw [alookup, if_neg h] at hv
      rw [aupdate, if_neg h]
      exact List.Forall₂.cons ⟨rfl, dcPruned_refl _⟩ (ih hv)

theorem removeNumStep_pruned (n : String) (secs : List (String × ProviderSection))
    (k : String) : secsPruned (removeNumStep n secs k) secs := by
  unfold removeNumStep
  cases hks : alookup k secs with
  | none => exact secsPruned_refl _
  | some sec =>
    obtain ⟨ak, au, tc, pn⟩ := sec
    cases pn with
    | none => exact secsPruned_refl _
    | some pns =>
      show secsPruned
        (if ((alookup n pns).map JsVal.truthy).getD false = true
         then aupdate k (⟨ak, au, tc, some (adel n pns)⟩ : ProviderSection) secs
         else secs) secs
      by_cases hg : ((alookup n pns).map JsVal.truthy).getD false = true
      · rw [if_pos hg]
        exact secsPruned_aupdate k _ _ secs hks ⟨rfl, rfl, rfl, adel_sublist n pns⟩
      · rw [if_neg hg]
        exact secsPruned_refl _

theorem removeNumFromSections_pruned (keys : List String) (n : String)
    (secs : List (String × ProviderSection)) :
    secsPruned (removeNumFromSections keys n secs) secs := by
  induction keys generalizing secs with
  | nil => exact secsPruned_refl _
  | cons k ks ih =>
    exact secsPruned_trans (ih (removeNumStep n secs k)) (removeNumStep_pruned n secs k)

theorem rdfold_pruned (n : String) (l : List String) (st : DomainConfig × Bool)
    (dc : DomainConfig) (h : dcPruned st.1 dc) :
    dcPruned ((l.foldl (fun dcr k2 =>
      if secEntryTruthy dcr.1.providerSections k2 n then
        ({ dcr.1 with providerSections := removeNumStep n dcr.1.providerSections k2 },
         true)
      else dcr) st).1) dc := by
  induction l generalizing st with
  | nil => exact h
  | cons k2 ks ih =>
    rw [List.foldl_cons]
    apply ih
    by_cases hc : secEntryTruthy st.1.providerSections k2 n
    · rw [if_pos hc]
      have hnew : dcPruned (⟨st.1.inboundSipUri, st.1.apiKey, st.1.aliasName,
          st.1.tenant, removeNumStep n st.1.providerSections k2⟩ : DomainConfig) st.1 :=
        ⟨rfl, rfl, rfl, rfl, removeNumStep_pruned n st.1.providerSections k2⟩
      exact dcPruned_trans hnew h
    · rw [if_neg hc]
      exact h

theorem removeNumFromDomain_pruned (keys : List String) (n : String)
    (dc : DomainConfig) : dcPruned (removeNumFromDomain keys n dc).1 dc :=
  rdfold_pruned n keys (dc, false) dc (dcPruned_refl dc)

theorem removalStep_pruned (p : Provider) (df : Option String)
    (pf : List (String × String)) (st : Config × Nat) (m : String) :
    configPruned (removalStep p df pf st m).1 st.1 := by
  unfold removalStep
  by_cases hskip : removalSkip df (alookup m pf)
  · rw [if_pos hskip]
    exact configPruned_refl _
  · rw [if_neg hskip]
    unfold removalApply
    cases hdom : alookup m pf with
    | none =>
      exact ⟨domsPruned_refl _, removeNumFromSections_pruned _ _ _⟩
    | some d =>
      simp only
      by_cases hde : d.isEmpty
      · rw [if_pos hde]
        exact ⟨domsPruned_refl _, removeNumFromSections_pruned _ _ _⟩
      · rw [if_neg hde]
        cases hdc : alookup d st.1.domains with
        | none =>
          simp only [hdc]
          exact ⟨domsPruned_refl _, removeNumFromSections_pruned _ _ _⟩
        | some dc =>
          simp only [hdc]
          exact ⟨domsPruned_aupdate d dc _ st.1.domains hdc
              (removeNumFromDomain_pruned _ _ _),
            removeNumFromSections_pruned _ _ _⟩

theorem removalLoop_pruned (p : Provider) (df : Option String)
    (pf : List (String × String)) (ns : List String) (st : Config × Nat) :
    configPruned ((ns.foldl (removalStep p df pf) st).1) st.1 := by
  induction ns generalizing st with
  | nil => exact configPruned_refl _
  | cons m ms ih =>
    rw [List.foldl_cons]
    exact configPruned_trans (ih (removalStep p df pf st m))
      (removalStep_pruned p df pf st m)

/-- C10: whenever a reconciliation pass saves, the saved configuration
differs from the loaded one only by deletions inside phone-number maps;
credentials and domain metadata are unchanged and nothing is added. -/
theorem sync_save_frame (p : Provider) (df : Option String) (ro : Except Unit JsVal)
    (file : Config) (h : (syncProviderNumbers p df ro file).saved = true) :
    configPruned (syncProviderNumbers p df ro file).store (getConfig file) := by
  unfold syncProviderNumbers at h
  cases hpath : syncPath p df ro file with
  | noNumbers =>
    rw [hpath] at h
    exact absurd h Bool.false_ne_true
  | crashed =>
    rw [hpath] at h
    exact absurd h Bool.false_ne_true
  | emptyFiltered =>
    rw [hpath] at h
    exact absurd h Bool.false_ne_true
  | fetchFailed =>
    rw [hpath] at h
    exact absurd h Bool.false_ne_true
  | removalPhase acc rns =>
    rw [hpath] at h
    by_cases he : (numbersToRemoveOf acc rns).isEmpty = true
    · simp only [if_pos he] at h
      exact absurd h Bool.false_ne_true
    · rw [Bool.not_eq_true] at he
      simp only [he, Bool.false_eq_true, if_false] at h
      by_cases hpos : 0 < ((numbersToRemoveOf acc rns).foldl
          (removalStep p df acc.phonesForDomain) (getConfig file, 0)).2
      · rw [syncProviderNumbers_removal p df ro file acc rns hpath he hpos]
        exact removalLoop_pruned p df acc.phonesForDomain
          (numbersToRemoveOf acc rns) (getConfig file, 0)
      · simp only [if_neg hpos] at h
        exact absurd h Bool.false_ne_true

theorem sync_save_frame_witness :
    (syncProviderNumbers .vapi none (.ok (.arr [])) storeC5).saved = true ∧
    configPruned (syncProviderNumbers .vapi none (.ok (.arr [])) storeC5).store
      (getConfig storeC5) :=
  ⟨rfl, sync_save_frame .vapi none (.ok (.arr [])) storeC5 rfl⟩

theorem removalSkip_none (o : Option String) : removalSkip none o = false := by
  cases o <;> rfl

theorem list_any_congr {l : List α} {f g : α → Bool} (h : ∀ a ∈ l, f a = g a) :
    l.any f = l.any g := by
  induction l with
  | nil => rfl
  | cons a t ih =>
    rw [List.any_cons, List.any_cons, h a (List.mem_cons_self a t),
      ih (fun b hb => h b (List.mem_cons_of_mem _ hb))]

theorem list_countP_congr {l : List α} {f g : α → Bool} (h : ∀ a ∈ l, f a = g a) :
    l.countP f = l.countP g := by
  induction l with
  | nil => rfl
  | cons a t ih =>
    rw [List.countP_cons, List.countP_cons, h a (List.mem_cons_self a t),
      ih (fun b hb => h b (List.mem_cons_of_mem _ hb))]

theorem list_countP_zero {l : List α} {f : α → Bool} (h : ∀ a ∈ l, f a = false) :
    l.countP f = 0 := by
  induction l with
  | nil => rfl
  | cons a t ih =>
    rw [List.countP_cons, h a (List.mem_cons_self a t),
      ih (fun b hb => h b (List.mem_cons_of_mem _ hb))]
    rfl

theorem alookup_of_mem_nodup {k : String} {v : α} {l : List (String × α)}
    (hmem : (k, v) ∈ l) (hnd : (l.map Prod.fst).Nodup) : alookup k l = some v := by
  induction l with
  | nil => exact absurd hmem (List.not_mem_nil _)
  | cons hd t ih =>
    obtain ⟨k0, v0⟩ := hd
    rw [List.map_cons, List.nodup_cons] at hnd
    rcases List.mem_cons.mp hmem with heq | hmem2
    · injection heq with h1 h2
      subst h1
      subst h2
      rw [alookup, if_pos rfl]
    · by_cases h : k0 = k
      · subst h
        exact absurd (List.mem_map_of_mem Prod.fst hmem2) hnd.1
      · rw [alookup, if_neg h]
        exact ih hmem2 hnd.2

theorem secEntryTruthy_inv {secs : List (String × ProviderSection)} {k n : String}
    (h : secEntryTruthy secs k n = true) :
    ∃ s pns v, alookup k secs = some s ∧ s.phoneNumbers = some pns ∧
      alookup n pns = some v ∧ v.truthy = true := by
  unfold secEntryTruthy at h
  cases hks : alookup k secs with
  | none =>
    rw [hks] at h
    exact absurd h (by simp)
  | some s =>
    rw [hks] at h
    have h2 : (match s.phoneNumbers with
      | some pns => ((alookup n pns).map JsVal.truthy).getD false
      | none => false) = true := h
    cases hpn : s.phoneNumbers with
    | none =>
      rw [hpn] at h2
      exact absurd h2 (by simp)
    | some pns =>
      rw [hpn] at h2
      have h3 : ((alookup n pns).map JsVal.truthy).getD false = true := h2
      cases hv : alookup n pns with
      | none =>
        rw [hv] at h3
        exact absurd h3 (by simp)
      | some v =>
        rw [hv] at h3
        exact ⟨s, pns, v, rfl, hpn, hv, h3⟩

theorem secEntryTruthy_intro {secs : List (String × ProviderSection)} {k n : String}
    {s : ProviderSection} {pns : PNMap} {v : JsVal}
    (h1 : alookup k secs = some s) (h2 : s.phoneNumbers = some pns)
    (h3 : alookup n pns = some v) (h4 : v.truthy = true) :
    secEntryTruthy secs k n = true := by
  unfold secEntryTruthy
  rw [h1]
  show (match s.phoneNumbers with
    | some pns => ((alookup n pns).map JsVal.truthy).getD false
    | none => false) = true
  rw [h2]
  show ((alookup n pns).map JsVal.truthy).getD false = true
  rw [h3]
  exact h4

theorem domsPruned_alookup {l l' : List (String × DomainConfig)} {d : String}
    {dc : DomainConfig}
    (h : List.Forall₂ (fun e e' => e.1 = e'.1 ∧ dcPruned e.2 e'.2) l l')
    (hl : alookup d l = some dc) :
    ∃ dc', alookup d l' = some dc' ∧ dcPruned dc dc' := by
  induction h with
  | nil => exact absurd hl (by simp [alookup])
  | cons hab t ih =>
    rename_i a b l1 l2
    obtain ⟨a1, a2⟩ := a
    obtain ⟨b1, b2⟩ := b
    have hk : a1 = b1 := hab.1
    subst hk
    by_cases hd : a1 = d
    · subst hd
      rw [alookup, if_pos rfl] at hl
      injection hl with hl
      subst hl
      rw [alookup, if_pos rfl]
      exact ⟨b2, rfl, hab.2⟩
    · rw [alookup, if_neg hd] at hl
      rw [alookup, if_neg hd]
      exact ih hl

theorem domsPruned_alookup_rev {l l' : List (String × DomainConfig)} {d : String}
    {dc' : DomainConfig}
    (h : List.Forall₂ (fun e e' => e.1 = e'.1 ∧ dcPruned e.2 e'.2) l l')
    (hl : alookup d l' = some dc') :
    ∃ dc, alookup d l = some dc ∧ dcPruned dc dc' := by
  induction h with
  | nil => exact absurd hl (by simp [alookup])
  | cons hab t ih =>
    rename_i a b l1 l2
    obtain ⟨a1, a2⟩ := a
    obtain ⟨b1, b2⟩ := b
    have hk : a1 = b1 := hab.1
    subst hk
    by_cases hd : a1 = d
    · subst hd
      rw [alookup, if_pos rfl] at hl
      injection hl with hl
      subst hl
      rw [alookup, if_pos rfl]
      exact ⟨a2, rfl, hab.2⟩
    · rw [alookup, if_neg hd] at hl
      rw [alookup, if_neg hd]
      exact ih hl

theorem secsPruned_alookup {l l' : List (String × ProviderSection)} {k : String}
    {s : ProviderSection} (h : secsPruned l l') (hl : alookup k l = some s) :
    ∃ s', alookup k l' = some s' ∧ secPruned s s' := by
  induction h with
  | nil => exact absurd hl (by simp [alookup])
  | cons hab t ih =>
    rename_i a b l1 l2
    obtain ⟨a1, a2⟩ := a
    obtain ⟨b1, b2⟩ := b
    have hk : a1 = b1 := hab.1
    subst hk
    by_cases hd : a1 = k
    · subst hd
      rw [alookup, if_pos rfl] at hl
      injection hl with hl
      subst hl
      rw [alookup, if_pos rfl]
      exact ⟨b2, rfl, hab.2⟩
    · rw [alookup, if_neg hd] at hl
      rw [alookup, if_neg hd]
      exact ih hl

theorem rdfold_flag_eq (n : String) (keys : List String) (dc : DomainConfig) :
    ((keys.foldl (fun dcr k2 =>
      if secEntryTruthy dcr.1.providerSections k2 n then
        ({ dcr.1 with providerSections := removeNumStep n dcr.1.providerSections k2 },
         true)
      else dcr) (dc, false)).2)
      = keys.any (fun k => secEntryTruthy dc.providerSections k n) := by
  induction keys generalizing dc with
  | nil => rfl
  | cons k ks ih =>
    rw [List.foldl_cons, List.any_cons]
    by_cases hg : secEntryTruthy dc.providerSections k n
    · rw [if_pos hg, hg, Bool.true_or]
      exact rdfold_flag_mono n ks _ rfl
    · rw [Bool.not_eq_true] at hg
      rw [hg, if_neg Bool.false_ne_true, Bool.false_or]
      exact ih dc

theorem removeNumFromDomain_flag (keys : List String) (n : String) (dc : DomainConfig) :
    (removeNumFromDomain keys n dc).2
      = keys.any (fun k => secEntryTruthy dc.providerSections k n) :=
  rdfold_flag_eq n keys dc

theorem rdfold_kills (n k : String) (a b : List String) (st : DomainConfig × Bool)
    (ha : k ∉ a) (hb : k ∉ b)
    (hnd : mapKeysNodupAt st.1.providerSections k) :
    secEntryTruthy (((a ++ k :: b).foldl (fun dcr k2 =>
      if secEntryTruthy dcr.1.providerSections k2 n then
        ({ dcr.1 with providerSections := removeNumStep n dcr.1.providerSections k2 },
         true)
      else dcr) st).1.providerSections) k n = false := by
  rw [List.foldl_append]
  have hbind := rdfold_binding_pres n a st k ha
  have htail : ∀ st2 : DomainConfig × Bool,
      sectionNumLookup (alookup k st2.1.providerSections) n = none →
      secEntryTruthy ((b.foldl (fun dcr k2 =>
        if secEntryTruthy dcr.1.providerSections k2 n then
          ({ dcr.1 with providerSections := removeNumStep n dcr.1.providerSections k2 },
           true)
        else dcr) st2).1.providerSections) k n = false := by
    intro st2 h0
    have hbind2 := rdfold_binding_pres n b st2 k hb
    rw [secEntryTruthy_eq_sectionNumTruthy, hbind2]
    unfold sectionNumTruthy
    rw [h0]
  generalize hst1 : (a.foldl (fun dcr k2 =>
      if secEntryTruthy dcr.1.providerSections k2 n then
        ({ dcr.1 with providerSections := removeNumStep n dcr.1.providerSections k2 },
         true)
      else dcr) st) = st1 at hbind ⊢
  obtain ⟨dc1, fl1⟩ := st1
  rw [List.foldl_cons]
  by_cases hg : secEntryTruthy (dc1, fl1).1.providerSections k n
  · rw [if_pos hg]
    have htr : sectionNumTruthy (alookup k dc1.providerSections) n = true := by
      rw [← secEntryTruthy_eq_sectionNumTruthy]
      exact hg
    have hnd1 : mapKeysNodupAt dc1.providerSections k := by
      intro s pns h1 h2
      rw [hbind] at h1
      exact hnd s pns h1 h2
    have hdel := removeNumStep_deletes n dc1.providerSections k htr hnd1
    exact htail _ hdel
  · rw [if_neg hg]
    have hbind2 := rdfold_binding_pres n b (dc1, fl1) k hb
    rw [secEntryTruthy_eq_sectionNumTruthy, hbind2,
      ← secEntryTruthy_eq_sectionNumTruthy]
    rw [Bool.not_eq_true] at hg
    exact hg

theorem removeNumFromDomain_kills (keys : List String) (n k : String)
    (dc : DomainConfig) (hk : k ∈ keys) (hknd : keys.Nodup)
    (hnd : mapKeysNodupAt dc.providerSections k) :
    secEntryTruthy (removeNumFromDomain keys n dc).1.providerSections k n = false := by
  obtain ⟨a, b, hsplit, ha, hb⟩ := nodup_mem_split hk hknd
  rw [hsplit]
  exact rdfold_kills n k a b (dc, false) ha hb hnd

theorem removalStep_apply_domains (p : Provider) (pf : List (String × String))
    (st : Config × Nat) (n d : String) (dc : DomainConfig)
    (hpf : alookup n pf = some d) (hde : d.isEmpty = false)
    (hdc : alookup d st.1.domains = some dc) :
    alookup d (removalStep p none pf st n).1.domains
      = some (removeNumFromDomain p.configKeys n dc).1 := by
  unfold removalStep
  rw [removalSkip_none]
  simp only [Bool.false_eq_true, if_false]
  unfold removalApply
  rw [hpf]
  simp only
  rw [if_neg (by rw [hde]; exact Bool.false_ne_true), hdc]
  simp only
  exact alookup_aupdate_self _ _ _

theorem removalStep_count_eq (p : Provider) (pf : List (String × String))
    (st : Config × Nat) (n : String) :
    (removalStep p none pf st n).2
      = st.2 + (if removalFire p pf st.1 n then 1 else 0) := by
  unfold removalStep removalFire
  rw [removalSkip_none]
  simp only [Bool.false_eq_true, if_false]
  unfold removalApply
  cases hpf : alookup n pf with
  | none => rfl
  | some d =>
    simp only
    by_cases hde : d.isEmpty = true
    · simp [hde]
    · rw [Bool.not_eq_true] at hde
      simp only [hde, Bool.false_eq_true, if_false]
      cases hdc : alookup d st.1.domains with
      | none => simp [hdc]
      | some dc =>
        simp only [hdc]
        rw [removeNumFromDomain_flag]
        by_cases hany : p.configKeys.any
            (fun k => secEntryTruthy dc.providerSections k n) = true
        · simp [hany]
        · rw [Bool.not_eq_true] at hany
          simp [hany]

theorem removalStep_domains_cases (p : Provider) (pf : List (String × String))
    (st : Config × Nat) (m d : String) :
    alookup d (removalStep p none pf st m).1.domains = alookup d st.1.domains ∨
    (∃ dcm, alookup d st.1.domains = some dcm ∧
      alookup d (removalStep p none pf st m).1.domains
        = some (removeNumFromDomain p.configKeys m dcm).1) := by
  unfold removalStep
  rw [removalSkip_none]
  simp only [Bool.false_eq_true, if_false]
  unfold removalApply
  cases hm : alookup m pf with
  | none => exact Or.inl rfl
  | some dm =>
    simp only
    by_cases hdem : dm.isEmpty = true
    · simp only [hdem, if_true]
      exact Or.inl trivial
    · rw [Bool.not_eq_true] at hdem
      simp only [hdem, Bool.false_eq_true, if_false]
      cases hdcm : alookup dm st.1.domains with
      | none =>
        simp only [hdcm]
        exact Or.inl trivial
      | some dcm =>
        simp only [hdcm]
        by_cases hdd : dm = d
        · subst hdd
          right
          exact ⟨dcm, hdcm, alookup_aupdate_self _ _ _⟩
        · left
          exact alookup_aupdate_ne (fun he => hdd he.symm) _ _

theorem removalStep_fire_pres (p : Provider) (pf : List (String × String))
    (st : Config × Nat) (m n : String) (hmn : m ≠ n) :
    removalFire p pf (removalStep p none pf st m).1 n
      = removalFire p pf st.1 n := by
  unfold removalFire
  cases hpfn : alookup n pf with
  | none => rfl
  | some d =>
    simp only
    by_cases hde : d.isEmpty = true
    · simp [hde]
    · rw [Bool.not_eq_true] at hde
      simp only [hde, Bool.false_eq_true, if_false]
      rcases removalStep_domains_cases p pf st m d with hsame | ⟨dcm, hdcm, hnew⟩
      · rw [hsame]
      · rw [hnew, hdcm]
        apply list_any_congr
        intro k hk
        rw [secEntryTruthy_eq_sectionNumTruthy, secEntryTruthy_eq_sectionNumTruthy]
        exact sectionNumTruthy_congr (removeNumFromDomain_pres _ _ _ _ hmn _)

theorem removalLoop_count_eq (p : Provider) (pf : List (String × String))
    (ns : List String) (st : Config × Nat) (hnd : ns.Nodup) :
    (ns.foldl (removalStep p none pf) st).2
      = st.2 + ns.countP (fun n => removalFire p pf st.1 n) := by
  induction ns generalizing st with
  | nil => rfl
  | cons m ms ih =>
    rw [List.foldl_cons]
    obtain ⟨hm, hnd2⟩ : m ∉ ms ∧ ms.Nodup := by
      rw [List.nodup_cons] at hnd
      exact hnd
    rw [ih _ hnd2, removalStep_count_eq]
    have hcong : ms.countP (fun n => removalFire p pf (removalStep p none pf st m).1 n)
        = ms.countP (fun n => removalFire p pf st.1 n) :=
      list_countP_congr (fun n hn =>
        removalStep_fire_pres p pf st m n (fun he => hm (he ▸ hn)))
    rw [hcong, List.countP_cons]
    by_cases hf : removalFire p pf st.1 m
    · rw [if_pos hf]
      omega
    · rw [Bool.not_eq_true] at hf
      rw [hf, if_neg Bool.false_ne_true]
      omega

theorem elevenLocalFallback_nil (f : Config) : elevenLocalFallback f = [] := rfl

theorem elevenGetPhoneNumbers_indep (remote : Except Unit JsVal) (f f' : Config) :
    elevenGetPhoneNumbers remote f = elevenGetPhoneNumbers remote f' := by
  unfold elevenGetPhoneNumbers
  rw [elevenLocalFallback_nil f, elevenLocalFallback_nil f']

theorem remoteNumsOf_indep (p : Provider) (ro : Except Unit JsVal) (f f' : Config) :
    remoteNumsOf p ro f = remoteNumsOf p ro f' := by
  cases p with
  | vapi => rfl
  | retell => rfl
  | labs11 =>
    unfold remoteNumsOf providerFetch
    simp only
    rw [elevenGetPhoneNumbers_indep ro (elevenCtorWrite f) (elevenCtorWrite f')]

theorem mergeSection_merge (fs : Option ProviderSection) :
    mergeSection (some (mergeSection fs)) = mergeSection fs := by
  cases fs with
  | none => rfl
  | some s => rfl

theorem elevenLoad_load (fs : Option ProviderSection) :
    elevenLoadSection (some (elevenLoadSection fs)) = elevenLoadSection fs := rfl

theorem getConfig_idem (f : Config) : getConfig (getConfig f) = getConfig f := by
  show ({ domains := f.domains, providerSections :=
    [("vapi", mergeSection (some (mergeSection (alookup "vapi" f.providerSections)))),
     ("retell", mergeSection (some (mergeSection (alookup "retell" f.providerSections)))),
     ("elevenlabs", elevenLoadSection (some (elevenLoadSection
       (alookup "elevenlabs" f.providerSections))))] } : Config) = getConfig f
  rw [mergeSection_merge, mergeSection_merge, elevenLoad_load]
  rfl

theorem retellCtorWrite_eq (f : Config) : retellCtorWrite f = getConfig f := by
  cases hfs : alookup "retell" f.providerSections with
  | none =>
    unfold retellCtorWrite getConfig
    simp only [hfs]
    rfl
  | some s =>
    unfold retellCtorWrite getConfig
    simp only [hfs]
    rfl

theorem getConfig_elevenCtor (f : Config) :
    getConfig (elevenCtorWrite f) = getConfig f := by
  show ({ domains := f.domains, providerSections :=
    [("vapi", mergeSection (some (mergeSection (alookup "vapi" f.providerSections)))),
     ("retell", mergeSection (some (mergeSection (alookup "retell" f.providerSections)))),
     ("elevenlabs", elevenLoadSection (alookup "elevenlabs" f.providerSections))] }
      : Config) = getConfig f
  rw [mergeSection_merge, mergeSection_merge]
  rfl

theorem getConfig_fetch (p : Provider) (ro : Except Unit JsVal) (f : Config) :
    getConfig (providerFetch p ro f).1 = getConfig f := by
  cases p with
  | vapi => rfl
  | retell =>
    rw [show (providerFetch .retell ro f).1 = retellCtorWrite f from rfl,
      retellCtorWrite_eq, getConfig_idem]
  | labs11 =>
    rw [show (providerFetch .labs11 ro f).1 = elevenCtorWrite f from rfl,
      getConfig_elevenCtor]

theorem syncPath_congr (p : Provider) (df : Option String) (ro : Except Unit JsVal)
    (f f' : Config) (hg : getConfig f = getConfig f')
    (hr : remoteNumsOf p ro f = remoteNumsOf p ro f') :
    syncPath p df ro f = syncPath p df ro f' := by
  unfold syncPath
  rw [hg, hr]

theorem syncPath_fetchFailed_inv {p : Provider} {df : Option String}
    {ro : Except Unit JsVal} {file : Config}
    (h : syncPath p df ro file = .fetchFailed) :
    remoteNumsOf p ro file = .error () := by
  unfold syncPath at h
  simp only at h
  by_cases h1 : hasPhoneNumbers p (getConfig file) (providerConfigOf p (getConfig file)) df
  · simp only [h1, Bool.not_true, Bool.false_eq_true, if_false] at h
    cases hb : buildLocal p (getConfig file) (providerConfigOf p (getConfig file)) df with
    | error e =>
      rw [hb] at h
      exact absurd h (by simp)
    | ok acc0 =>
      rw [hb] at h
      simp only at h
      by_cases h2 : df.isSome && acc0.numSet.isEmpty
      · simp only [h2, if_pos] at h
        exact absurd h (by simp)
      · simp only [h2, Bool.false_eq_true, if_false] at h
        cases hr : remoteNumsOf p ro file with
        | error e =>
          cases e
          rfl
        | ok rns =>
          rw [hr] at h
          exact absurd h (by simp)
  · have h1f : hasPhoneNumbers p (getConfig file)
        (providerConfigOf p (getConfig file)) df = false :=
      Bool.not_eq_true _ ▸ eq_false_of_ne_true h1
    rw [h1f] at h
    exact absurd h (by simp)

theorem syncProviderNumbers_count (p : Provider) (df : Option String)
    (ro : Except Unit JsVal) (file : Config) (acc : LocalAcc) (rns : List JsVal)
    (hpath : syncPath p df ro file = .removalPhase acc rns) :
    (syncProviderNumbers p df ro file).removedCount
      = if (numbersToRemoveOf acc rns).isEmpty then 0
        else ((numbersToRemoveOf acc rns).foldl
          (removalStep p df acc.phonesForDomain) (getConfig file, 0)).2 := by
  unfold syncProviderNumbers
  rw [hpath]
  by_cases he : (numbersToRemoveOf acc rns).isEmpty = true
  · simp only [he, if_pos, if_true]
  · rw [Bool.not_eq_true] at he
    simp only [he, Bool.false_eq_true, if_false]
    by_cases hp : 0 < ((numbersToRemoveOf acc rns).foldl
        (removalStep p df acc.phonesForDomain) (getConfig file, 0)).2
    · simp only [if_pos hp]
    · simp only [if_neg hp]

theorem syncStore_noNumbers {p : Provider} {df : Option String}
    {ro : Except Unit JsVal} {file : Config}
    (h : syncPath p df ro file = .noNumbers) :
    syncProviderNumbers p df ro file = ⟨0, file, false, false, false⟩ := by
  unfold syncProviderNumbers
  rw [h]

theorem syncStore_crashed {p : Provider} {df : Option String}
    {ro : Except Unit JsVal} {file : Config}
    (h : syncPath p df ro file = .crashed) :
    syncProviderNumbers p df ro file = ⟨0, file, true, false, false⟩ := by
  unfold syncProviderNumbers
  rw [h]

theorem syncStore_emptyFiltered {p : Provider} {df : Option String}
    {ro : Except Unit JsVal} {file : Config}
    (h : syncPath p df ro file = .emptyFiltered) :
    syncProviderNumbers p df ro file = ⟨0, file, false, false, false⟩ := by
  unfold syncProviderNumbers
  rw [h]

theorem syncStore_fetchFailed {p : Provider} {df : Option String}
    {ro : Except Unit JsVal} {file : Config}
    (h : syncPath p df ro file = .fetchFailed) :
    syncProviderNumbers p df ro file
      = ⟨0, (providerFetch p ro file).1, false, true, false⟩ := by
  unfold syncProviderNumbers
  rw [h]

theorem syncStore_empty {p : Provider} {df : Option String}
    {ro : Except Unit JsVal} {file : Config} {acc : LocalAcc} {rns : List JsVal}
    (h : syncPath p df ro file = .removalPhase acc rns)
    (he : (numbersToRemoveOf acc rns).isEmpty = true) :
    syncProviderNumbers p df ro file
      = ⟨0, (providerFetch p ro file).1, false, false, false⟩ := by
  unfold syncProviderNumbers
  rw [h]
  simp only [he, if_pos, if_true]

theorem syncStore_nosave {p : Provider} {df : Option String}
    {ro : Except Unit JsVal} {file : Config} {acc : LocalAcc} {rns : List JsVal}
    (h : syncPath p df ro file = .removalPhase acc rns)
    (he : (numbersToRemoveOf acc rns).isEmpty = false)
    (hp : ¬ 0 < ((numbersToRemoveOf acc rns).foldl
      (removalStep p df acc.phonesForDomain) (getConfig file, 0)).2) :
    syncProviderNumbers p df ro file
      = ⟨((numbersToRemoveOf acc rns).foldl
          (removalStep p df acc.phonesForDomain) (getConfig file, 0)).2,
        (providerFetch p ro file).1, false, false, false⟩ := by
  unfold syncProviderNumbers
  rw [h]
  simp only [he, Bool.false_eq_true, if_false, if_neg hp]

theorem run_kills_record (p : Provider) (ro : Except Unit JsVal) (store : Config)
    (acc : LocalAcc) (rns : List JsVal) (n d2 k : String) (dc' : DomainConfig)
    (hpath : syncPath p none ro store = .removalPhase acc rns)
    (hmemT : n ∈ numbersToRemoveOf acc rns)
    (hd2 : alookup d2 store.domains = some dc')
    (hd2n : domainHasNum p dc' n = true)
    (honly : ∀ e ∈ store.domains, e.1 ≠ d2 → domainHasNum p e.2 n = false)
    (hde : d2.isEmpty = false)
    (hwfd : ∀ k2, mapKeysNodupAt dc'.providerSections k2)
    (hk : k ∈ p.configKeys) :
    cfgEntryTruthy ((numbersToRemoveOf acc rns).foldl
      (removalStep p none acc.phonesForDomain) (getConfig store, 0)).1 d2 k n
      = false := by
  obtain ⟨hbuild, hrem⟩ := syncPath_removal_inv hpath
  have hacc := buildLocal_unfiltered_inv hbuild
  have hdcc : alookup d2 (getConfig store).domains = some dc' := hd2
  have hpf : alookup n acc.phonesForDomain = some d2 := by
    rw [hacc, domainsFold_pf]
    exact pffold_reaches p n d2 (getConfig store).domains _ honly
      ⟨dc', alookup_mem hdcc, hd2n⟩ (addGlobalNums_pf_cases _ n)
  have hnodup : acc.numSet.Nodup := by
    rw [hacc]
    exact domainsFold_nodup p _ _ (addGlobalNums_nodup _ _ List.nodup_nil)
  have hTnodup : (numbersToRemoveOf acc rns).Nodup := List.Nodup.filter _ hnodup
  obtain ⟨l1, l2, hsplit, hn1, hn2⟩ := nodup_mem_split hmemT hTnodup
  have hresplit : (numbersToRemoveOf acc rns).foldl
        (removalStep p none acc.phonesForDomain) (getConfig store, 0)
      = l2.foldl (removalStep p none acc.phonesForDomain)
          (removalStep p none acc.phonesForDomain
            (l1.foldl (removalStep p none acc.phonesForDomain)
              (getConfig store, 0)) n) := by
    rw [hsplit, List.foldl_append, List.foldl_cons]
  set st1 : Config × Nat :=
    l1.foldl (removalStep p none acc.phonesForDomain) (getConfig store, 0) with hst1
  have hprun1 : configPruned st1.1 (getConfig store) := by
    rw [hst1]
    exact removalLoop_pruned p none acc.phonesForDomain l1 (getConfig store, 0)
  obtain ⟨dc1, hdc1, hpr1⟩ := domsPruned_alookup_rev hprun1.1 hdcc
  have hinv0 : domMapNodup (getConfig store, (0 : Nat)).1 d2 k := by
    intro dcx hdcx
    have h2 : alookup d2 store.domains = some dcx := hdcx
    rw [hd2] at h2
    injection h2 with h2
    subst h2
    exact hwfd k
  have hnd1 : mapKeysNodupAt dc1.providerSections k := by
    refine removalLoop_domMapNodup p none acc.phonesForDomain l1
      (getConfig store, 0) d2 k hinv0 dc1 ?_
    rw [← hst1]
    exact hdc1
  have hstepdom := removalStep_apply_domains p acc.phonesForDomain st1 n d2 dc1
    hpf hde hdc1
  have hkill := removeNumFromDomain_kills p.configKeys n k dc1 hk
    (provider_configKeys_nodup p) hnd1
  have hpres2 := removalLoop_pres p none acc.phonesForDomain l2
    (removalStep p none acc.phonesForDomain st1 n) n hn2
  rw [hresplit]
  unfold cfgEntryTruthy
  cases hF : alookup d2 (l2.foldl (removalStep p none acc.phonesForDomain)
      (removalStep p none acc.phonesForDomain st1 n)).1.domains with
  | none => rfl
  | some dcF =>
    simp only
    rw [secEntryTruthy_eq_sectionNumTruthy]
    have hdlF : domainNumLookup (l2.foldl (removalStep p none acc.phonesForDomain)
        (removalStep p none acc.phonesForDomain st1 n)).1 d2 k n
        = domainNumLookup (removalStep p none acc.phonesForDomain st1 n).1 d2 k n :=
      hpres2.2 d2 k
    rw [domainNumLookup_eq, hF] at hdlF
    rw [domainNumLookup_eq, hstepdom] at hdlF
    have hdlF2 : sectionNumLookup (alookup k dcF.providerSections) n
        = sectionNumLookup (alookup k
          (removeNumFromDomain p.configKeys n dc1).1.providerSections) n := hdlF
    rw [sectionNumTruthy_congr hdlF2, ← secEntryTruthy_eq_sectionNumTruthy]
    exact hkill

/-- C6: if every number is tracked by at most one domain per provider (and
phone maps have unique keys), rerunning a provider's reconciliation on the
store it produced, with the same remote outcome, reports zero removals. -/
theorem sync_idempotent (p : Provider) (ro : Except Unit JsVal) (store : Config)
    (hwf : ∀ e ∈ store.domains, ∀ k, mapKeysNodupAt e.2.providerSections k)
    (hscope : ∀ n : String, ∀ e1 ∈ store.domains, ∀ e2 ∈ store.domains,
      domainHasNum p e1.2 n = true → domainHasNum p e2.2 n = true → e1.1 = e2.1) :
    (syncProviderNumbers p none ro
      (syncProviderNumbers p none ro store).store).removedCount = 0 := by
  cases hpath1 : syncPath p none ro store with
  | noNumbers =>
    rw [syncStore_noNumbers hpath1]
    show (syncProviderNumbers p none ro store).removedCount = 0
    rw [syncStore_noNumbers hpath1]
  | crashed =>
    rw [syncStore_crashed hpath1]
    show (syncProviderNumbers p none ro store).removedCount = 0
    rw [syncStore_crashed hpath1]
  | emptyFiltered =>
    rw [syncStore_emptyFiltered hpath1]
    show (syncProviderNumbers p none ro store).removedCount = 0
    rw [syncStore_emptyFiltered hpath1]
  | fetchFailed =>
    rw [syncStore_fetchFailed hpath1]
    show (syncProviderNumbers p none ro (providerFetch p ro store).1).removedCount = 0
    have hre := syncPath_fetchFailed_inv hpath1
    cases hpath2 : syncPath p none ro (providerFetch p ro store).1 with
    | removalPhase acc2 rns2 =>
      have h2 := (syncPath_removal_inv hpath2).2
      rw [remoteNumsOf_indep p ro _ store, hre] at h2
      exact absurd h2 (by simp)
    | noNumbers => rw [syncStore_noNumbers hpath2]
    | crashed => rw [syncStore_crashed hpath2]
    | emptyFiltered => rw [syncStore_emptyFiltered hpath2]
    | fetchFailed => rw [syncStore_fetchFailed hpath2]
  | removalPhase acc rns =>
    obtain ⟨hbuild1, hrem1⟩ := syncPath_removal_inv hpath1
    by_cases he1 : (numbersToRemoveOf acc rns).isEmpty = true
    · rw [syncStore_empty hpath1 he1]
      show (syncProviderNumbers p none ro (providerFetch p ro store).1).removedCount = 0
      have hpath2 : syncPath p none ro (providerFetch p ro store).1
          = .removalPhase acc rns := by
        rw [syncPath_congr p none ro (providerFetch p ro store).1 store
          (getConfig_fetch p ro store) (remoteNumsOf_indep p ro _ store)]
        exact hpath1
      rw [syncProviderNumbers_count p none ro _ acc rns hpath2, if_pos he1]
    · rw [Bool.not_eq_true] at he1
      by_cases hp1 : 0 < ((numbersToRemoveOf acc rns).foldl
          (removalStep p none acc.phonesForDomain) (getConfig store, 0)).2
      · rw [syncProviderNumbers_removal p none ro store acc rns hpath1 he1 hp1]
        set res : Config × Nat := (numbersToRemoveOf acc rns).foldl
          (removalStep p none acc.phonesForDomain) (getConfig store, 0) with hres
        show (syncProviderNumbers p none ro res.1).removedCount = 0
        cases hpath2 : syncPath p none ro res.1 with
        | noNumbers => rw [syncStore_noNumbers hpath2]
        | crashed => rw [syncStore_crashed hpath2]
        | emptyFiltered => rw [syncStore_emptyFiltered hpath2]
        | fetchFailed => rw [syncStore_fetchFailed hpath2]
        | removalPhase acc2 rns2 =>
          rw [syncProviderNumbers_count p none ro _ acc2 rns2 hpath2]
          by_cases he2 : (numbersToRemoveOf acc2 rns2).isEmpty = true
          · rw [if_pos he2]
          · rw [Bool.not_eq_true] at he2
            rw [he2, if_neg Bool.false_ne_true]
            obtain ⟨hbuild2, hrem2⟩ := syncPath_removal_inv hpath2
            have hrns2 : rns2 = rns := by
              have h2 := hrem2
              rw [remoteNumsOf_indep p ro _ store, hrem1] at h2
              injection h2 with h2
              exact h2.symm
            have hacc2 := buildLocal_unfiltered_inv hbuild2
            have hnodup2 : (numbersToRemoveOf acc2 rns2).Nodup := by
              refine List.Nodup.filter _ ?_
              rw [hacc2]
              exact domainsFold_nodup p _ _ (addGlobalNums_nodup _ _ List.nodup_nil)
            rw [removalLoop_count_eq p acc2.phonesForDomain _ _ hnodup2]
            have hall : ∀ m ∈ numbersToRemoveOf acc2 rns2,
                removalFire p acc2.phonesForDomain
                  (getConfig res.1, (0 : Nat)).1 m = false := by
              intro m hm
              unfold removalFire
              cases hpfm : alookup m acc2.phonesForDomain with
              | none => rfl
              | some d2 =>
                simp only
                by_cases hdem : d2.isEmpty = true
                · simp [hdem]
                · rw [Bool.not_eq_true] at hdem
                  simp only [hdem, Bool.false_eq_true, if_false]
                  cases hdc2 : alookup d2 (getConfig res.1, (0 : Nat)).1.domains with
                  | none => rfl
                  | some dc2 =>
                    simp only
                    by_cases hany : p.configKeys.any
                        (fun k => secEntryTruthy dc2.providerSections k m) = true
                    · exfalso
                      rw [List.any_eq_true] at hany
                      obtain ⟨k, hkmem, hsec2⟩ := hany
                      have hdc2' : alookup d2 res.1.domains = some dc2 := hdc2
                      have hprun : configPruned res.1 (getConfig store) := by
                        rw [hres]
                        exact removalLoop_pruned p none acc.phonesForDomain _ _
                      obtain ⟨dc', hd2cfg, hprF⟩ := domsPruned_alookup hprun.1 hdc2'
                      obtain ⟨s2, pns2, v, hs2, hpn2, hv, htr⟩ := secEntryTruthy_inv hsec2
                      obtain ⟨s', hs', hsp⟩ := secsPruned_alookup hprF.2.2.2.2 hs2
                      have hpnp := hsp.2.2.2
                      rw [hpn2] at hpnp
                      cases hpn' : s'.phoneNumbers with
                      | none =>
                        rw [hpn'] at hpnp
                        exact hpnp
                      | some pns' =>
                        rw [hpn'] at hpnp
                        have hsub : pns2.Sublist pns' := hpnp
                        have hmem' : (m, v) ∈ pns' := hsub.subset (alookup_mem hv)
                        have hd2store : alookup d2 store.domains = some dc' := hd2cfg
                        have hentry : (d2, dc') ∈ store.domains := alookup_mem hd2store
                        have hndp : (pns'.map Prod.fst).Nodup :=
                          hwf (d2, dc') hentry k s' pns' hs' hpn'
                        have halk : alookup m pns' = some v :=
                          alookup_of_mem_nodup hmem' hndp
                        have hsec' : secEntryTruthy dc'.providerSections k m = true :=
                          secEntryTruthy_intro hs' hpn' halk htr
                        have hd2n : domainHasNum p dc' m = true := by
                          apply domainHasNum_of_truthy p dc' k m hkmem
                          rw [← secEntryTruthy_eq_sectionNumTruthy]
                          exact hsec'
                        have honly : ∀ e ∈ store.domains, e.1 ≠ d2 →
                            domainHasNum p e.2 m = false := by
                          intro e he hne
                          by_cases hd : domainHasNum p e.2 m = true
                          · exact absurd (hscope m e he (d2, dc') hentry hd hd2n) hne
                          · rw [Bool.not_eq_true] at hd
                            exact hd
                        have hm' : m ∈ acc2.numSet.filter
                            (fun n => !(rns2.any (fun v => v.strictEqStr n))) := hm
                        obtain ⟨hmN2, hmNR⟩ := List.mem_filter.mp hm'
                        have hmN1 : m ∈ acc.numSet := by
                          rw [buildLocal_unfiltered_inv hbuild1, domainsFold_numSet_mem]
                          right
                          rw [List.any_eq_true]
                          exact ⟨(d2, dc'), hentry, hd2n⟩
                        have hmemT1 : m ∈ numbersToRemoveOf acc rns := by
                          show m ∈ acc.numSet.filter
                            (fun n => !(rns.any (fun v => v.strictEqStr n)))
                          rw [List.mem_filter]
                          refine ⟨hmN1, ?_⟩
                          rw [← hrns2]
                          exact hmNR
                        have hwfd : ∀ k2, mapKeysNodupAt dc'.providerSections k2 :=
                          fun k2 => hwf (d2, dc') hentry k2
                        have hkillrec := run_kills_record p ro store acc rns m d2 k dc'
                          hpath1 hmemT1 hd2store hd2n honly hdem hwfd hkmem
                        rw [← hres] at hkillrec
                        unfold cfgEntryTruthy at hkillrec
                        rw [hdc2'] at hkillrec
                        have hkill2 : secEntryTruthy dc2.providerSections k m = false :=
                          hkillrec
                        rw [hsec2] at hkill2
                        exact absurd hkill2 (by simp)
                    · rw [Bool.not_eq_true] at hany
                      exact hany
            rw [list_countP_zero hall]
      · rw [syncStore_nosave hpath1 he1 hp1]
        show (syncProviderNumbers p none ro (providerFetch p ro store).1).removedCount = 0
        have hpath2 : syncPath p none ro (providerFetch p ro store).1
            = .removalPhase acc rns := by
          rw [syncPath_congr p none ro (providerFetch p ro store).1 store
            (getConfig_fetch p ro store) (remoteNumsOf_indep p ro _ store)]
          exact hpath1
        rw [syncProviderNumbers_count p none ro _ acc rns hpath2]
        rw [he1, if_neg Bool.false_ne_true, getConfig_fetch p ro store]
        omega

theorem sync_idempotent_witness :
    (syncProviderNumbers .vapi none (.ok (.arr []))
      (syncProviderNumbers .vapi none (.ok (.arr [])) storeC5).store).removedCount
      = 0 := by
  apply sync_idempotent .vapi (.ok (.arr [])) storeC5
  · intro e he k s pns h1 h2
    have he2 : e = ("example.com", dcC5) := List.mem_singleton.mp he
    subst he2
    have h1' : (if "vapi" = k then some secC5 else (none : Option ProviderSection))
        = some s := h1
    by_cases hk : "vapi" = k
    · rw [if_pos hk] at h1'
      injection h1' with h1'
      subst h1'
      have h2' : some pnsC5 = some pns := h2
      injection h2' with h2'
      subst h2'
      decide
    · rw [if_neg hk] at h1'
      exact absurd h1' (by simp)
  · intro n e1 h1 e2 h2 hd1 hd2
    have he1 : e1 = ("example.com", dcC5) := List.mem_singleton.mp h1
    have he2 : e2 = ("example.com", dcC5) := List.mem_singleton.mp h2
    rw [he1, he2]
